import Mathlib

/-!
Verification of the per-tenant ACI reconciliation worker
(`aim/agent/aid/universes/aci/tenant.py`).

The Python module is shallowly embedded: each dict-shaped managed-object
event becomes an `Event`, the mutable tag set becomes an explicit
`List String`, hash trees (whose sources live outside the provided tree,
in `aim/common/hashtree/structured_tree.py` and `aim/db/tree_model.py`)
are modelled from the specification as sets of DN keys, and the external
ACI session and converter are abstracted as function parameters.
-/

namespace AciTenant

/-- A managed-object event, the JSON shape
`{class: {attributes: {...}, children: [...]}}` used throughout
`tenant.py`.  The single top-level key becomes `klass`, the attribute
dict becomes an association list, and the optional `children` list is
the empty list when absent. -/
inductive Event : Type where
  | mk : String → List (String × String) → List Event → Event

/-- The event class, `event.keys()[0]` in the source. -/
def Event.klass : Event → String
  | .mk k _ _ => k

/-- The attribute dictionary, `event.values()[0]['attributes']`. -/
def Event.attrs : Event → List (String × String)
  | .mk _ a _ => a

/-- The nested children, `event.values()[0].get('children', [])`. -/
def Event.children : Event → List Event
  | .mk _ _ c => c

mutual
def Event.beq : Event → Event → Bool
  | .mk k1 a1 c1, .mk k2 a2 c2 => k1 == k2 && a1 == a2 && Event.beqL c1 c2
def Event.beqL : List Event → List Event → Bool
  | [], [] => true
  | x :: xs, y :: ys => Event.beq x y && Event.beqL xs ys
  | _, _ => false
end

mutual
theorem Event.beq_iff : ∀ a b : Event, Event.beq a b = true ↔ a = b
  | .mk k1 a1 c1, .mk k2 a2 c2 => by
    simp only [Event.beq, Bool.and_eq_true, beq_iff_eq, Event.mk.injEq]
    constructor
    · rintro ⟨⟨h1, h2⟩, h3⟩
      exact ⟨h1, h2, (Event.beqL_iff c1 c2).mp h3⟩
    · rintro ⟨h1, h2, h3⟩
      exact ⟨⟨h1, h2⟩, (Event.beqL_iff c1 c2).mpr h3⟩
theorem Event.beqL_iff : ∀ l1 l2 : List Event, Event.beqL l1 l2 = true ↔ l1 = l2
  | [], [] => by simp [Event.beqL]
  | [], _ :: _ => by simp [Event.beqL]
  | _ :: _, [] => by simp [Event.beqL]
  | x :: xs, y :: ys => by
    simp only [Event.beqL, Bool.and_eq_true, List.cons.injEq]
    constructor
    · rintro ⟨h1, h2⟩
      exact ⟨(Event.beq_iff x y).mp h1, (Event.beqL_iff xs ys).mp h2⟩
    · rintro ⟨h1, h2⟩
      exact ⟨(Event.beq_iff x y).mpr h1, (Event.beqL_iff xs ys).mpr h2⟩
end

instance : DecidableEq Event := fun a b =>
  decidable_of_iff (Event.beq a b = true) (Event.beq_iff a b)

/-- `attributes.get(key)`: first binding of `key`, if any. -/
def getAttr (e : Event) (key : String) : Option String :=
  (e.attrs.find? (fun p => p.1 = key)).map (fun p => p.2)

/-- `attributes['dn']`, defaulting to the empty string where the Python
code would raise on a missing key (all call sites have a DN). -/
def dnOf (e : Event) : String :=
  (getAttr e "dn").getD ""

/-- Python truthiness of an optional string: `None` and `''` are falsy. -/
def truthyOpt : Option String → Bool
  | none => false
  | some s => !(s = "")

-- Module-level constants of `tenant.py` (lines 36-46).
def TENANT_KEY : String := "fvTenant"

def INFRA_KEY : String := "infraInfra"

def ROOT_KEYS : List String := [TENANT_KEY, INFRA_KEY]

def FAULT_KEY : String := "faultInst"

def TAG_KEY : String := "tagInst"

/-- Modelled from the spec: `converter.DELETED_STATUS` (the converter
module is not part of the provided sources); the spec gives
`status ∈ {created, modified, deleted}`. -/
def DELETED_STATUS : String := "deleted"

/-- Modelled from the spec: `converter.CLEARED_SEVERITY`; the spec gives
`severity ∈ {…, cleared}` for fault objects. -/
def CLEARED_SEVERITY : String := "cleared"

def OPERATIONAL_LIST : List String := [FAULT_KEY]

/-! ## C1: subscription URL construction (`Tenant._get_instance_subscription_urls`) -/

/-- Replace the first occurrence of `pat` in `s` by `rep`. -/
def replaceFirst (pat rep : List Char) : List Char → List Char
  | [] => []
  | c :: cs =>
    if pat ≠ [] ∧ pat.isPrefixOf (c :: cs) then rep ++ (c :: cs).drop pat.length
    else c :: replaceFirst pat rep cs

/-- Python `template.format(arg)` for a single positional argument:
substitute `arg` for the first empty placeholder (a brace pair), leaving
a placeholder-free template unchanged. -/
def pyFormat1 (template arg : String) : String :=
  ⟨replaceFirst "\x7b\x7d".data arg.data template.data⟩

/-- `Tenant._rn_fmt` (tenant.py line 60-61): the literal `'tn-' ++`
brace-pair placeholder. -/
def tenantRnFmt : String := "tn-\x7b\x7d"

/-- `Infra._rn_fmt` (tenant.py line 128-129): a bare placeholder. -/
def infraRnFmt : String := "\x7b\x7d"

/-- Python `','.join(parts)`. -/
def joinComma : List String → String
  | [] => ""
  | p :: ps => ps.foldl (fun acc x => acc ++ "," ++ x) p

/-- `Tenant._get_instance_subscription_urls` (tenant.py lines 63-69).
In the source, `.format(self.name)` attaches to the implicitly
concatenated literal `'.json?query-target=subtree&...subscription=yes'`
(adjacent string literals are joined before attribute access), not to
the whole expression, so the placeholder returned by `_rn_fmt()` is
never substituted.  The embedding reproduces that placement exactly. -/
def getInstanceSubscriptionUrls (rnFmt name : String)
    (filteredChildren : List String) : List String :=
  let url := "/api/mo/uni/" ++ rnFmt ++
    pyFormat1
      (".json?query-target=subtree&rsp-prop-include=config-only&" ++
       "rsp-subtree-include=faults&subscription=yes") name
  let url := if filteredChildren ≠ [] then
      url ++ "&target-subtree-class=" ++ joinComma filteredChildren
    else url
  [url]

/-! ## C2: event drain with coalescing (`Tenant.instance_get_event_data`) -/

/-- The coalescing key: `(class, dn)` of an event. -/
def eventKey (e : Event) : String × Option String :=
  (e.klass, getAttr e "dn")

/-- One iteration of the drain loop body (tenant.py lines 112-119):
scan the partial result for an entry with the same class and DN; the
first match is overwritten wholesale (`partial.update(event)` replaces
the single top-level key), otherwise the event is appended. -/
def squashInto (result : List Event) (e : Event) : List Event :=
  match result with
  | [] => [e]
  | p :: rest =>
    if p.klass = e.klass ∧ getAttr p "dn" = getAttr e "dn" then e :: rest
    else p :: squashInto rest e

/-- `Tenant.instance_get_event_data` (tenant.py lines 101-120) on the
pending event stream of the (single) subscription URL. -/
def instanceGetEventData (stream : List Event) : List Event :=
  stream.foldl squashInto []

/-- Claim-side helper: the `(class, dn)` keys of a stream in order of
first appearance. -/
def firstAppearanceKeys (stream : List Event) : List (String × Option String) :=
  stream.foldl (fun acc e => if eventKey e ∈ acc then acc else acc ++ [eventKey e]) []

/-- Claim-side helper: the first event of `l` with the given key. -/
def findByKey (l : List Event) (k : String × Option String) : Option Event :=
  l.find? (fun e => decide (eventKey e = k))

/-! ## C3: flattening nested children (`AciTenantManager.flat_events`) -/

/-- Structural size of an event, counting nodes and ignoring attributes
(attribute rewrites keep the size stable). -/
def Event.nsize : Event → Nat
  | .mk _ _ cs => 1 + nsizeL cs
where
  nsizeL : List Event → Nat
    | [] => 0
    | e :: es => Event.nsize e + nsizeL es

/-- Total node count of an event list. -/
def nsizeL : List Event → Nat
  | [] => 0
  | e :: es => e.nsize + nsizeL es

/-- Set (or add) an attribute, as Python `attrs[key] = value`. -/
def setAttr (e : Event) (key value : String) : Event :=
  .mk e.klass
    (if (e.attrs.find? (fun p => p.1 = key)).isSome then
      e.attrs.map (fun p => if p.1 = key then (p.1, value) else p)
    else e.attrs ++ [(key, value)])
    e.children

/-- Drop the children of an event, as `event.values()[0].pop('children')`. -/
def stripChildren (e : Event) : Event :=
  .mk e.klass e.attrs []

/-- The child-processing step of `flat_events` (tenant.py lines 582-601):
look the child class up in the prefix table (`mos_to_prefix`, a table of
the external apic client, abstracted as `table`); an unknown class is
dropped; otherwise the child's DN becomes the parent DN, a slash, and
its `rn` when truthy, else the prefix optionally followed by a dash and
its `name` (falling back to `code`) when that is truthy. -/
def liftChild (table : String → Option String) (parentDn : String)
    (c : Event) : Option Event :=
  match table c.klass with
  | none => none
  | some pfx =>
    let rn := getAttr c "rn"
    let nameOrCode : Option String :=
      match getAttr c "name" with
      | some v => some v
      | none => getAttr c "code"
    let seg :=
      match rn with
      | some r => if r = "" then pfxSeg pfx nameOrCode else r
      | none => pfxSeg pfx nameOrCode
    some (setAttr c "dn" (parentDn ++ "/" ++ seg))
where
  pfxSeg (pfx : String) : Option String → String
    | some v => if v = "" then pfx else pfx ++ "-" ++ v
    | none => pfx

/-- The children of one event that survive the prefix-table filter, with
their DNs rebuilt. -/
def validKids (table : String → Option String) (e : Event) : List Event :=
  e.children.filterMap (liftChild table (dnOf e))

theorem nsize_setAttr (e : Event) (k v : String) :
    (setAttr e k v).nsize = e.nsize := by
  cases e with
  | mk kl a c => simp [setAttr, Event.nsize, Event.klass, Event.attrs, Event.children]

theorem nsize_liftChild {table : String → Option String} {d : String}
    {c c' : Event} (h : liftChild table d c = some c') : c'.nsize = c.nsize := by
  unfold liftChild at h
  cases htc : table c.klass with
  | none => rw [htc] at h; cases h
  | some pfx =>
    rw [htc] at h
    simp only [Option.some.injEq] at h
    subst h
    exact nsize_setAttr ..

theorem nsizeL_append (l1 l2 : List Event) :
    nsizeL (l1 ++ l2) = nsizeL l1 + nsizeL l2 := by
  induction l1 with
  | nil => simp [nsizeL]
  | cons e es ih => simp [nsizeL, ih]; omega

theorem nsize_pos (e : Event) : 0 < e.nsize := by
  cases e with
  | mk k a c =>
    simp only [Event.nsize]
    omega

theorem nsizeL_eq_aux (l : List Event) : nsizeL l = Event.nsize.nsizeL l := by
  induction l with
  | nil => rfl
  | cons e es ih => simp [nsizeL, Event.nsize.nsizeL, ih]

theorem nsizeL_validKids_le (table : String → Option String) (e : Event) :
    nsizeL (validKids table e) ≤ nsizeL e.children := by
  unfold validKids
  induction e.children with
  | nil => simp [nsizeL]
  | cons c cs ih =>
    simp only [List.filterMap_cons]
    cases h : liftChild table (dnOf e) c with
    | none => simp [nsizeL]; omega
    | some c' =>
      simp only [nsizeL]
      have := nsize_liftChild h
      omega

theorem nsize_children_lt (e : Event) : nsizeL e.children < e.nsize := by
  cases e with
  | mk k a c =>
    simp only [Event.nsize, Event.children]
    rw [show nsizeL c = Event.nsize.nsizeL c from nsizeL_eq_aux c]
    omega

theorem flatStep_dec (table : String → Option String) (e : Event)
    (rest : List Event) :
    nsizeL (rest ++ validKids table e) < nsizeL (e :: rest) := by
  simp only [nsizeL, nsizeL_append]
  have h1 := nsizeL_validKids_le table e
  have h2 := nsize_children_lt e
  omega

/-- The worklist core of `flat_events`: the Python `for` loop walks a
list that is extended (`events.extend(valid_children)`) while being
iterated, so every appended child is itself visited later.  `acc` holds
the already-visited events (children popped) in reverse order, `queue`
the events still to visit. -/
def flatStep (table : String → Option String) (acc queue : List Event) :
    List Event :=
  match queue with
  | [] => acc.reverse
  | e :: rest =>
    flatStep table (stripChildren e :: acc) (rest ++ validKids table e)
termination_by nsizeL queue
decreasing_by
  apply flatStep_dec

/-- `AciTenantManager.flat_events` (tenant.py lines 574-602), applied to
an event list; the result is the final content of the mutated list. -/
def flatEvents (table : String → Option String) (events : List Event) :
    List Event :=
  flatStep table [] events

/-! Claim-side restatement of the flattening rule, written from the
specification sentence: strip every event, synthesize one top-level
event per child whose class the prefix table knows, with DN equal to
the parent DN, a slash, and the child's `rn` or its class prefix joined
by a dash to its name or code; recurse on children of children. -/

/-- The child DN segment according to the specification wording. -/
def specChildSeg (pfx : String) (rn nameOrCode : Option String) : String :=
  match rn with
  | some r =>
    if r = "" then
      match nameOrCode with
      | some v => if v = "" then pfx else pfx ++ "-" ++ v
      | none => pfx
    else r
  | none =>
    match nameOrCode with
    | some v => if v = "" then pfx else pfx ++ "-" ++ v
    | none => pfx

/-- A child kept by the specification rule, with its DN rebuilt. -/
def specLift (table : String → Option String) (parentDn : String)
    (c : Event) : Option Event :=
  match table c.klass with
  | none => none
  | some pfx =>
    some (setAttr c "dn"
      (parentDn ++ "/" ++
        specChildSeg pfx (getAttr c "rn")
          (match getAttr c "name" with
           | some v => some v
           | none => getAttr c "code")))

theorem nsizeL_specKids_le (table : String → Option String) (e : Event) :
    nsizeL (e.children.filterMap (specLift table (dnOf e))) ≤
      nsizeL e.children := by
  induction e.children with
  | nil => simp [nsizeL]
  | cons c cs ih =>
    simp only [List.filterMap_cons]
    cases h : specLift table (dnOf e) c with
    | none => simp [nsizeL]; omega
    | some c' =>
      simp only [nsizeL]
      have hc : c'.nsize = c.nsize := by
        unfold specLift at h
        cases htc : table c.klass with
        | none => rw [htc] at h; cases h
        | some pfx =>
          rw [htc] at h
          simp only [Option.some.injEq] at h
          subst h
          exact nsize_setAttr ..
      omega

theorem nsizeL_specFlatMap_le (table : String → Option String)
    (l : List Event) :
    nsizeL (l.flatMap (fun x => x.children.filterMap (specLift table (dnOf x)))) ≤
      nsizeL l := by
  induction l with
  | nil => simp [nsizeL]
  | cons x xs ih =>
    simp only [List.flatMap_cons, nsizeL_append, nsizeL]
    have h1 := nsizeL_specKids_le table x
    have h2 := nsize_children_lt x
    omega

theorem flatSpec_dec (table : String → Option String) (e : Event)
    (evs : List Event) :
    nsizeL ((e :: evs).flatMap
        (fun x => x.children.filterMap (specLift table (dnOf x)))) <
      nsizeL (e :: evs) := by
  simp only [List.flatMap_cons, nsizeL_append, nsizeL]
  have h1 := nsizeL_specKids_le table e
  have h2 := nsize_children_lt e
  have h3 := nsizeL_specFlatMap_le table evs
  omega

/-- The specification's flattening, level by level: the stripped events
followed by the flattening of all their kept children. -/
def flatEventsSpec (table : String → Option String) :
    List Event → List Event
  | [] => []
  | e :: evs =>
    (e :: evs).map stripChildren ++
      flatEventsSpec table ((e :: evs).flatMap
        (fun x => x.children.filterMap (specLift table (dnOf x))))
termination_by l => nsizeL l
decreasing_by
  apply flatSpec_dec

/-! ## C4/C10: ownership filter (`AciTenantManager._filter_ownership`) -/

/-- Python `s.split('/')`: splits at every slash, keeping empty parts. -/
def splitSlash (s : String) : List String :=
  go s.data []
where
  go : List Char → List Char → List String
    | [], cur => [⟨cur.reverse⟩]
    | c :: cs, cur =>
      if c = '/' then (⟨cur.reverse⟩ : String) :: go cs []
      else go cs (c :: cur)

/-- Python `'/'.join(parts)`. -/
def joinSlash : List String → String
  | [] => ""
  | p :: ps => ps.foldl (fun acc x => acc ++ "/" ++ x) p

/-- `'/'.join(dn.split('/')[:-1])`: the parent DN. -/
def parentDnOf (dn : String) : String :=
  joinSlash (splitSlash dn).dropLast

/-- `dn.split('/')[-1]`: the last DN segment. -/
def lastSegOf (dn : String) : String :=
  ((splitSlash dn).getLast?).getD ""

/-- `AciTenantManager._is_deleting` (tenant.py lines 634-637): the
`status` attribute, falling back to `severity`, equals the deleted
status or the cleared severity. -/
def isDeleting (e : Event) : Bool :=
  let status :=
    match getAttr e "status" with
    | some s => some s
    | none => getAttr e "severity"
  status = some DELETED_STATUS || status = some CLEARED_SEVERITY

/-- `AciTenantManager._is_owned` (tenant.py lines 625-632).  The
multi-parent class set `apic_client.MULTI_PARENT` belongs to the
external apic client and is abstracted as a parameter. -/
def isOwned (multiParent : List String) (tagSet : List String)
    (e : Event) : Bool :=
  if e.klass ∈ multiParent then tagSet.contains (parentDnOf (dnOf e))
  else tagSet.contains (dnOf e)

/-- Add to the tag set (Python `set.add`, modelled on a duplicate-free
list). -/
def tagAdd (tagSet : List String) (dn : String) : List String :=
  if tagSet.contains dn then tagSet else tagSet ++ [dn]

/-- Remove from the tag set (Python `set.discard`). -/
def tagDiscard (tagSet : List String) (dn : String) : List String :=
  tagSet.filter (fun x => !(x = dn))

/-- The first loop of `_filter_ownership` (tenant.py lines 607-616): tag
events whose last DN segment is `tag-<system_id>` update the tag set
(parent DN added on create, discarded on delete); every event of any
other class is kept as managed; tag events never are. -/
def filterTagStep (sysId : String) (acc : List Event × List String)
    (e : Event) : List Event × List String :=
  if e.klass = TAG_KEY then
    if lastSegOf (dnOf e) = "tag-" ++ sysId then
      if isDeleting e then (acc.1, tagDiscard acc.2 (parentDnOf (dnOf e)))
      else (acc.1, tagAdd acc.2 (parentDnOf (dnOf e)))
    else acc
  else (acc.1 ++ [e], acc.2)

/-- `AciTenantManager._filter_ownership` (tenant.py lines 604-623):
returns `(owned, monitored, tag_set)`.  The second loop sends an event
to `owned` when it is owned or deleting, and to `monitored` when it is
not owned or deleting. -/
def filterOwnership (multiParent : List String) (sysId : String)
    (tagSet : List String) (events : List Event) :
    List Event × List Event × List String :=
  let st := events.foldl (filterTagStep sysId) ([], tagSet)
  let owned := st.1.filter (fun e => isOwned multiParent st.2 e || isDeleting e)
  let monitored :=
    st.1.filter (fun e => !(isOwned multiParent st.2 e) || isDeleting e)
  (owned, monitored, st.2)

/-- Claim-side restatement of the tag-set evolution, written from the
claim's words: each tag event at `.../tag-<system_id>` adds its parent
DN when not deleting and removes it when deleting; other events leave
the set alone. -/
def tagSetSpecStep (sysId : String) (tagSet : List String) (e : Event) :
    List String :=
  if e.klass = TAG_KEY ∧ lastSegOf (dnOf e) = "tag-" ++ sysId then
    if isDeleting e then tagDiscard tagSet (parentDnOf (dnOf e))
    else tagAdd tagSet (parentDnOf (dnOf e))
  else tagSet

/-! ## C5/C9: hash trees and the event fold

`structured_tree.StructuredHashTree` and `tree_model.AimHashTreeMaker`
live outside the provided sources, so they are modelled from the
specification (section 3 and 4.1): a hash tree is summarized by the set
of DN keys it holds; `update` inserts the objects' keys, `delete`
removes each object's key together with its whole subtree. -/

/-- Whether key `k` lies in the subtree rooted at key `d` (it is `d`
itself or a descendant path). -/
def isUnder (d k : String) : Bool :=
  d = k || (d ++ "/").data.isPrefixOf k.data

/-- Modelled from the spec: a hash tree, summarized by its DN keys
(`structured_tree.py` is not part of the provided sources). -/
structure HashTree where
  keys : List String

/-- Modelled from the spec: the fresh empty tree
`structured_tree.StructuredHashTree()`. -/
def HashTree.empty : HashTree := ⟨[]⟩

/-- Modelled from the spec: `AimHashTreeMaker.delete(state, objects)`
removes every given key with its subtree. -/
def treeDelete (t : HashTree) (ks : List String) : HashTree :=
  ⟨t.keys.filter (fun k => !(ks.any (fun d => isUnder d k)))⟩

/-- Modelled from the spec: `AimHashTreeMaker.update(state, objects)`
inserts the given keys. -/
def treeUpdate (t : HashTree) (ks : List String) : HashTree :=
  ⟨t.keys ++ ks.filter (fun k => !(t.keys.contains k))⟩

/-- The mutable state of one `AciTenantManager`: the config tree
(`_state`), the operational tree (`_operational_state`), the monitored
tree (`_monitored_state`) and the tag set. -/
structure WorkerState where
  state : HashTree
  operationalState : HashTree
  monitoredState : HashTree
  tagSet : List String

/-- Root-reset detection in `AciTenantManager._event_loop` (tenant.py
lines 275-284), the first stage applied to a drained batch, before
`flat_events`, `_fill_events`, `_filter_ownership` and
`_event_to_tree`: if any event is of a root class with a falsy `status`
attribute, the config and operational trees are replaced by fresh empty
trees; the monitored tree is not touched. -/
def eventLoopResetStep (ws : WorkerState) (events : List Event) :
    WorkerState :=
  if events.any (fun e =>
      decide (e.klass ∈ ROOT_KEYS) && !(truthyOpt (getAttr e "status"))) then
    { ws with state := HashTree.empty, operationalState := HashTree.empty }
  else ws

/-! The event fold `AciTenantManager._event_to_tree` (tenant.py lines
391-486).  The external converters are modelled from the spec: the
ACI-to-AIM conversion preserves class and DN, and the screening double
conversion (`_screen_monitored`) yields a fresh object with default
flags. -/

/-- An AIM model object as far as the fold observes it: class, DN and
the `monitored` / `pre_existing` flags. -/
structure AimRes where
  klass : String
  dn : String
  monitored : Bool
  preExisting : Bool
deriving DecidableEq, Repr

/-- Modelled from the spec: `AciToAimModelConverter.convert` maps each
MO to a model object with the same class and DN (`converter.py` is not
part of the provided sources). -/
def toAimConvert (events : List Event) : List AimRes :=
  events.map (fun e => ⟨e.klass, dnOf e, false, false⟩)

/-- `_monitor` (tenant.py lines 428-431) applied to the monitored
tree's objects: sets the `monitored` flag. -/
def setMonitored (o : AimRes) : AimRes :=
  { o with monitored := true }

/-- `_screen_monitored` (tenant.py lines 433-435): the double
conversion, modelled from the spec as producing a fresh object with
default flags. -/
def screenMonitored (o : AimRes) : AimRes :=
  ⟨o.klass, o.dn, false, false⟩

/-- `_set_pre_existing` (tenant.py lines 437-440). -/
def setPreExisting (o : AimRes) : AimRes :=
  { o with monitored := false, preExisting := true }

/-- The six buckets `evaluate_event` fills (tenant.py lines 399-426),
plus the tag set after the `tag_set.discard` calls on deleting events. -/
structure Buckets where
  cfgCre : List Event
  cfgDel : List Event
  operCre : List Event
  operDel : List Event
  monCre : List Event
  monDel : List Event
  tagSet : List String

/-- `evaluate_event` for the owned loop: faults route to the
operational buckets, everything else to the config buckets; a deleting
event lands in the delete bucket and discards its DN from the tag
set. -/
def evalOwned (b : Buckets) (e : Event) : Buckets :=
  if isDeleting e then
    let b := { b with tagSet := tagDiscard b.tagSet (dnOf e) }
    if e.klass = FAULT_KEY then { b with operDel := b.operDel ++ [e] }
    else { b with cfgDel := b.cfgDel ++ [e] }
  else
    if e.klass = FAULT_KEY then { b with operCre := b.operCre ++ [e] }
    else { b with cfgCre := b.cfgCre ++ [e] }

/-- `evaluate_event` for the monitored loop, after
`trees[False] = monitored_tree` (tenant.py line 424): non-faults route
to the monitored buckets, faults still to the operational ones. -/
def evalMonitored (b : Buckets) (e : Event) : Buckets :=
  if isDeleting e then
    let b := { b with tagSet := tagDiscard b.tagSet (dnOf e) }
    if e.klass = FAULT_KEY then { b with operDel := b.operDel ++ [e] }
    else { b with monDel := b.monDel ++ [e] }
  else
    if e.klass = FAULT_KEY then { b with operCre := b.operCre ++ [e] }
    else { b with monCre := b.monCre ++ [e] }

/-- Both routing loops of `_event_to_tree`. -/
def routeEvents (tagSet : List String) (owned monitored : List Event) :
    Buckets :=
  let b0 : Buckets := ⟨[], [], [], [], [], [], tagSet⟩
  let b1 := owned.foldl evalOwned b0
  monitored.foldl evalMonitored b1

/-- Python dict comprehension keyed by DN: keeps, for every DN, the
last object carrying it, in order of last appearance. -/
def dedupByDnKeepLast (l : List AimRes) : List AimRes :=
  match l with
  | [] => []
  | o :: rest =>
    if rest.any (fun x => x.dn = o.dn) then dedupByDnKeepLast rest
    else o :: dedupByDnKeepLast rest

/-- The additional config-tree objects derived from the monitored
bucket (tenant.py lines 452-467): screened copies with `pre_existing`
set, one per DN. -/
def additionalObjects (monitoredBucket : List AimRes) : List AimRes :=
  dedupByDnKeepLast (monitoredBucket.map
    (fun o => setPreExisting (screenMonitored o)))

/-- The full create list applied to the config tree: converted owned
config events (marked `pre_existing` when a monitored copy of the same
DN exists) followed by the additional monitored copies. -/
def cfgListFull (cfgBucket monBucket : List Event) : List AimRes :=
  let base := toAimConvert cfgBucket
  let extra := additionalObjects ((toAimConvert monBucket).map setMonitored)
  base.map (fun o =>
    if extra.any (fun x => x.dn = o.dn) then setPreExisting o else o) ++ extra

/-- The keys a list of model objects contributes to a tree. -/
def keysOf (l : List AimRes) : List String :=
  l.map (fun o => o.dn)

/-- The create list applied to the monitored tree by one fold. -/
def monCreList (ts : List String) (owned monitored : List Event) :
    List AimRes :=
  (toAimConvert (routeEvents ts owned monitored).monCre).map setMonitored

/-- The delete list applied to the monitored tree by one fold. -/
def monDelList (ts : List String) (owned monitored : List Event) :
    List AimRes :=
  (toAimConvert (routeEvents ts owned monitored).monDel).map setMonitored

/-- The create list applied to the config tree by one fold. -/
def cfgCreList (ts : List String) (owned monitored : List Event) :
    List AimRes :=
  let b := routeEvents ts owned monitored
  cfgListFull b.cfgCre b.monCre

/-- The delete list applied to the config tree by one fold (and, as the
cleanup of tenant.py lines 472-475, to the operational tree). -/
def cfgDelList (ts : List String) (owned monitored : List Event) :
    List AimRes :=
  let b := routeEvents ts owned monitored
  cfgListFull b.cfgDel b.monDel

/-- The create list applied to the operational tree by one fold. -/
def operCreList (ts : List String) (owned monitored : List Event) :
    List AimRes :=
  toAimConvert (routeEvents ts owned monitored).operCre

/-- The delete list applied to the operational tree by one fold. -/
def operDelList (ts : List String) (owned monitored : List Event) :
    List AimRes :=
  toAimConvert (routeEvents ts owned monitored).operDel

/-- The keys deleted from the config tree by one fold. -/
def cfgDeleteKeys (ts : List String) (owned monitored : List Event) :
    List String :=
  keysOf (cfgDelList ts owned monitored)

/-- The keys created in the operational tree by one fold. -/
def operCreateKeys (ts : List String) (owned monitored : List Event) :
    List String :=
  keysOf (operCreList ts owned monitored)

/-- `AciTenantManager._event_to_tree` (tenant.py lines 391-486).  The
trees are processed in the source's iteration order — monitored tree,
config tree, operational tree — and a config-tree delete batch is also
applied to the operational tree (lines 469-475). -/
def eventToTree (ws : WorkerState) (owned monitored : List Event) :
    WorkerState :=
  let ts := ws.tagSet
  -- monitored tree
  let mon1 := if monDelList ts owned monitored ≠ [] then
      treeDelete ws.monitoredState (keysOf (monDelList ts owned monitored))
    else ws.monitoredState
  let mon2 := if monCreList ts owned monitored ≠ [] then
      treeUpdate mon1 (keysOf (monCreList ts owned monitored))
    else mon1
  -- config tree (its delete batch also cleans the operational tree)
  let st1 := if cfgDelList ts owned monitored ≠ [] then
      treeDelete ws.state (cfgDeleteKeys ts owned monitored)
    else ws.state
  let oper1 := if cfgDelList ts owned monitored ≠ [] then
      treeDelete ws.operationalState (cfgDeleteKeys ts owned monitored)
    else ws.operationalState
  let st2 := if cfgCreList ts owned monitored ≠ [] then
      treeUpdate st1 (keysOf (cfgCreList ts owned monitored))
    else st1
  -- operational tree
  let oper2 := if operDelList ts owned monitored ≠ [] then
      treeDelete oper1 (keysOf (operDelList ts owned monitored))
    else oper1
  let oper3 := if operCreList ts owned monitored ≠ [] then
      treeUpdate oper2 (operCreateKeys ts owned monitored)
    else oper2
  { state := st2, operationalState := oper3, monitoredState := mon2,
    tagSet := (routeEvents ts owned monitored).tagSet }

/-! ## C6: outbound push (`AciTenantManager._push_aim_resources`) -/

/-- A backlog entry, `{"create": [...], "delete": [...]}`.  The create
side holds AIM model objects; the delete side holds already MO-shaped
dicts (the source reads `obj.values()[0]['attributes']['dn']` on
them). -/
structure Request where
  create : List AimRes
  delete : List Event

/-- What one drain of the backlog sends to the Fabric: a single
transaction of MOs per created object, or a direct HTTP DELETE. -/
inductive ApicAction : Type where
  | transact : List Event → ApicAction
  | httpDelete : String → ApicAction
deriving DecidableEq

/-- The tag MO built for a pushed MO (tenant.py lines 338-342):
`{"tagInst__<class>": {"attributes": {"dn": dn + '/tag-' + system_id}}}`. -/
def tagMoFor (sysId : String) (mo : Event) : Event :=
  .mk ("tagInst__" ++ mo.klass) [("dn", dnOf mo ++ "/tag-" ++ sysId)] []

/-- Taking ownership before conversion (tenant.py lines 328-332): a
monitored object is pushed with `monitored` cleared and `pre_existing`
set. -/
def takeOwnership (obj : AimRes) : AimRes :=
  if obj.monitored then { obj with monitored := false, preExisting := true }
  else obj

/-- Processing one created AIM object (tenant.py lines 327-363): take
ownership if monitored, convert to MOs through the external
AIM-to-ACI converter `conv`, build one tag per resulting MO, and send
the MOs plus tags in a single transaction. -/
def pushCreateObject (conv : AimRes → List Event) (sysId : String)
    (obj : AimRes) : List ApicAction :=
  let toPush := conv (takeOwnership obj)
  let tags := toPush.foldl (fun acc mo => acc ++ [tagMoFor sysId mo]) []
  [.transact (toPush ++ tags)]

/-- Processing one deleted object (tenant.py lines 325-326, 336-337,
364-368): no conversion, no tags, one direct DELETE on `mo/<dn>.json`.
The `to_push + tags` loop runs with an empty tag list. -/
def pushDeleteObject (mo : Event) : List ApicAction :=
  [.httpDelete ("/mo/" ++ dnOf mo ++ ".json")]

/-- `AciTenantManager._push_aim_resources` (tenant.py lines 314-382)
over a drained backlog, recording the Fabric calls in order (the
create entries of a request before its delete entries). -/
def pushAimResources (conv : AimRes → List Event) (sysId : String)
    (backlog : List Request) : List ApicAction :=
  backlog.flatMap (fun r =>
    r.create.flatMap (pushCreateObject conv sysId) ++
      r.delete.flatMap pushDeleteObject)

/-! ## C7: completing events (`AciTenantManager.retrieve_aci_objects`) -/

/-- The walking state of `retrieve_aci_objects`: the visited DNs and
the result list (the Python code mutates both in place, so partial
updates survive a caught exception). -/
structure RetrSt where
  visited : List String
  result : List Event

/-- `visited.add(dn)` on the duplicate-free list model. -/
def addVisited (st : RetrSt) (dn : String) : RetrSt :=
  if st.visited.contains dn then st
  else { st with visited := st.visited ++ [dn] }

/-- `raw_dn not in visited`, where `raw_dn` may be `None`. -/
def rawDnNotVisited (st : RetrSt) : Option String → Bool
  | some d => !(st.visited.contains d)
  | none => true

/-- The query-target classes for one AIM resource (tenant.py lines
534-544): the resource's ACI class, the tag class when requested, and
every extra `resource` filler of the reverse map (abstracted as
`fillers`).  The Python set's join order is irrelevant to the claims;
the list below fixes one order. -/
def targetsFor (includeTags : Bool) (fillers : AimRes → List String)
    (ar : AimRes) : List String :=
  [ar.klass] ++ (if includeTags then [TAG_KEY] else []) ++ fillers ar

/-- The inner loop over the converted AIM resources of one event
(tenant.py lines 529-560).  `session dn targets configOnly` models
`aci_session.get_data('mo/' + dn, ...)`: either the returned items or
the error code of an `ApicResponseNotOk`.  The returned pair is the
state as mutated so far and the error, if one escaped to the
per-event handler. -/
def processAimRes (session : String → List String → Bool →
      Except String (List Event))
    (includeTags : Bool) (fillers : AimRes → List String)
    (opClass : Bool) : List AimRes → RetrSt → RetrSt × Option String
  | [], st => (st, none)
  | ar :: rest, st =>
    if st.visited.contains ar.dn then
      processAimRes session includeTags fillers opClass rest st
    else
      match session ar.dn (targetsFor includeTags fillers ar) (!opClass) with
      | .error c => (st, some c)
      | .ok data =>
        let st1 := data.foldl (fun s item =>
          if s.visited.contains (dnOf item) then s
          else ⟨s.visited ++ [dnOf item], s.result ++ [item]⟩) st
        processAimRes session includeTags fillers opClass rest
          (addVisited st1 ar.dn)

/-- The branch of the loop body of `retrieve_aci_objects` up to the
`try/except` (tenant.py lines 519-568): deleted events pass through
(deduplicated against visited DNs); events with a truthy status,
operational events, and all events under `get_all` are re-fetched, a
caught 404 being swallowed; a second component of `some c` stands for
an exception with code `c` escaping the handler. -/
def fetchStage (conv : Event → List AimRes)
    (session : String → List String → Bool → Except String (List Event))
    (getAll includeTags : Bool) (fillers : AimRes → List String)
    (st : RetrSt) (event : Event) : RetrSt × Option String :=
  if getAttr event "status" = some DELETED_STATUS then
    (if rawDnNotVisited st (getAttr event "dn") then
      { st with result := st.result ++ [event] } else st, none)
  else if getAll || truthyOpt (getAttr event "status") ||
      decide (event.klass ∈ OPERATIONAL_LIST) then
    match processAimRes session includeTags fillers
      (decide (event.klass ∈ OPERATIONAL_LIST)) (conv event) st with
    | (st', some c) => if c = "404" then (st', none) else (st', some c)
    | (st', none) => (st', none)
  else (st, none)

/-- The tail of the loop body (tenant.py lines 569-571): an event with
a falsy status is appended as already complete, unless its DN was
visited. -/
def completeStage (st1 : RetrSt) (event : Event) : RetrSt :=
  if truthyOpt (getAttr event "status") then st1
  else if rawDnNotVisited st1 (getAttr event "dn") then
    { st1 with result := st1.result ++ [event] }
  else st1

/-- One iteration of the loop of `retrieve_aci_objects` (tenant.py
lines 516-571); an uncaught exception aborts the whole retrieval. -/
def processEvent (conv : Event → List AimRes)
    (session : String → List String → Bool → Except String (List Event))
    (getAll includeTags : Bool) (fillers : AimRes → List String)
    (st : RetrSt) (event : Event) : Except String RetrSt :=
  match fetchStage conv session getAll includeTags fillers st event with
  | (_, some c) => .error c
  | (st1, none) => .ok (completeStage st1 event)

/-- `AciTenantManager.retrieve_aci_objects` (tenant.py lines 510-572). -/
def retrieveAciObjects (conv : Event → List AimRes)
    (session : String → List String → Bool → Except String (List Event))
    (getAll includeTags : Bool) (fillers : AimRes → List String)
    (events : List Event) : Except String (List Event) :=
  (events.foldlM (processEvent conv session getAll includeTags fillers)
    ⟨[], []⟩).map (fun st => st.result)

/-- Claim-side helper: first-occurrence deduplication of events by DN,
seeded with the DNs already seen. -/
def dedupByDnFirst : List Event → List String → List Event
  | [], _ => []
  | e :: es, seen =>
    if seen.contains (dnOf e) then dedupByDnFirst es seen
    else e :: dedupByDnFirst es (seen ++ [dnOf e])

/-! ## C8: loop error containment (`_main_loop` and `_run`) -/

/-- An exception escaping a call: the greenlet kill signal or any other
exception (carrying its message). -/
inductive PyExc : Type where
  | greenletExit : PyExc
  | exc : String → PyExc
deriving DecidableEq

/-- A call's outcome: a normal return or a raised exception. -/
inductive Outcome : Type where
  | ok : Outcome
  | raised : PyExc → Outcome
deriving DecidableEq

/-- `AciTenantManager._main_loop` (tenant.py lines 228-262).  The inner
`while True` leaves only by an exception; `bodyExc` is the first
exception its body raises.  `except gevent.GreenletExit: raise`
re-raises the kill signal; any other exception is logged and
`_unsubscribe_tenant` runs — `unsub` is that call's outcome, and an
exception it raises leaves `_main_loop` in place of the original
one. -/
def mainLoop (bodyExc : PyExc) (unsub : Outcome) : Outcome :=
  match bodyExc with
  | .greenletExit => .raised .greenletExit
  | .exc _ =>
    match unsub with
    | .ok => .ok
    | .raised u => .raised u

/-- `AciTenantManager._run` (tenant.py lines 212-226): call
`_main_loop` forever; on `GreenletExit` try to unsubscribe, swallow any
exception of that attempt (the `finally: return` suppresses even an
in-flight one) and return.  `iters` lists, for each `_main_loop` call
of the observed run, the body's first exception and its handler's
unsubscribe outcome; `exitUnsub` is the outcome of the unsubscribe in
the `GreenletExit` handler of `_run`. -/
def runWorker : List (PyExc × Outcome) → Outcome → Outcome
  | [], _ => .ok
  | (b, u) :: rest, exitUnsub =>
    match mainLoop b u with
    | .ok => runWorker rest exitUnsub
    | .raised .greenletExit => .ok
    | .raised (.exc m) => .raised (.exc m)

/-! # Theorems -/

/-! ## C1 -/

set_option maxRecDepth 4000 in
/-- C1 (code bug): at tenant name `test-tenant` the subscription URL
keeps the literal placeholder of `_rn_fmt()` — `.format(self.name)`
attaches to the adjacent query-string literals, which hold no
placeholder, so the tenant name is never substituted; the infra URL
likewise keeps a bare placeholder instead of `infra`.  The last
conjunct shows the modelled `format` does substitute when a
placeholder is present, so the failure is the source placement of
the call, not the model. -/
theorem subscription_url_placeholder_not_substituted :
    getInstanceSubscriptionUrls tenantRnFmt "test-tenant" [] =
      ["/api/mo/uni/tn-\x7b\x7d.json?query-target=subtree&" ++
       "rsp-prop-include=config-only&rsp-subtree-include=faults&" ++
       "subscription=yes"] ∧
    getInstanceSubscriptionUrls infraRnFmt "infra"
        ["infraInfra", "tagInst"] =
      ["/api/mo/uni/\x7b\x7d.json?query-target=subtree&" ++
       "rsp-prop-include=config-only&rsp-subtree-include=faults&" ++
       "subscription=yes&target-subtree-class=infraInfra,tagInst"] ∧
    pyFormat1 "tn-\x7b\x7d" "test-tenant" = "tn-test-tenant" := by
  refine ⟨?_, ?_, ?_⟩ <;> rfl

/-! ## C2 -/

theorem eventKey_eq_iff (p e : Event) :
    eventKey p = eventKey e ↔
      p.klass = e.klass ∧ getAttr p "dn" = getAttr e "dn" := by
  simp [eventKey, Prod.ext_iff]

theorem squashInto_map_eventKey (res : List Event) (e : Event) :
    (squashInto res e).map eventKey =
      if eventKey e ∈ res.map eventKey then res.map eventKey
      else res.map eventKey ++ [eventKey e] := by
  induction res with
  | nil => simp [squashInto]
  | cons p rest ih =>
    simp only [squashInto]
    by_cases h : p.klass = e.klass ∧ getAttr p "dn" = getAttr e "dn"
    · rw [if_pos h]
      have hk : eventKey p = eventKey e := (eventKey_eq_iff p e).mpr h
      have hmem : eventKey e ∈ (p :: rest).map eventKey := by
        simp [hk.symm]
      rw [if_pos hmem]
      simp [hk]
    · rw [if_neg h]
      have hk : eventKey p ≠ eventKey e := fun hc =>
        h ((eventKey_eq_iff p e).mp hc)
      simp only [List.map_cons, ih]
      by_cases hm : eventKey e ∈ rest.map eventKey
      · rw [if_pos hm, if_pos (by simp [hm])]
      · have hni : ¬ (eventKey e ∈ eventKey p :: List.map eventKey rest) := by
          simp only [List.mem_cons]
          push_neg
          exact ⟨fun hc => hk hc.symm, hm⟩
        rw [if_neg hm, if_neg hni]
        simp

theorem foldl_squash_map_eventKey (stream : List Event) :
    ∀ res : List Event,
      ((stream.foldl squashInto res).map eventKey) =
        stream.foldl
          (fun acc e => if eventKey e ∈ acc then acc else acc ++ [eventKey e])
          (res.map eventKey) := by
  induction stream with
  | nil => intro res; rfl
  | cons e s ih =>
    intro res
    simp only [List.foldl_cons]
    rw [ih (squashInto res e), squashInto_map_eventKey]

theorem firstAppearanceKeys_nodup (stream : List Event) :
    (firstAppearanceKeys stream).Nodup := by
  have key : ∀ (s : List Event) (acc : List (String × Option String)),
      acc.Nodup →
      (s.foldl
        (fun acc e => if eventKey e ∈ acc then acc else acc ++ [eventKey e])
        acc).Nodup := by
    intro s
    induction s with
    | nil => intro acc h; exact h
    | cons e s ih =>
      intro acc h
      simp only [List.foldl_cons]
      by_cases hm : eventKey e ∈ acc
      · rw [if_pos hm]; exact ih acc h
      · rw [if_neg hm]
        apply ih
        simp [List.nodup_append, h, hm]
  exact key stream [] (by simp)

theorem findByKey_squash_same (res : List Event) (e : Event) :
    findByKey (squashInto res e) (eventKey e) = some e := by
  induction res with
  | nil => simp [squashInto, findByKey]
  | cons p rest ih =>
    simp only [squashInto]
    by_cases h : p.klass = e.klass ∧ getAttr p "dn" = getAttr e "dn"
    · rw [if_pos h]
      simp [findByKey]
    · rw [if_neg h]
      have hk : ¬(eventKey p = eventKey e) := fun hc =>
        h ((eventKey_eq_iff p e).mp hc)
      simpa [findByKey, List.find?_cons, hk] using ih

theorem findByKey_squash_other (res : List Event) (e : Event)
    (k : String × Option String) (hne : ¬(eventKey e = k)) :
    findByKey (squashInto res e) k = findByKey res k := by
  induction res with
  | nil => simp [squashInto, findByKey, hne]
  | cons p rest ih =>
    simp only [squashInto]
    by_cases h : p.klass = e.klass ∧ getAttr p "dn" = getAttr e "dn"
    · rw [if_pos h]
      have hk : eventKey p = eventKey e := (eventKey_eq_iff p e).mpr h
      have hpk : ¬(eventKey p = k) := fun hc => hne (hk ▸ hc)
      simp [findByKey, List.find?_cons, hne, hpk]
    · rw [if_neg h]
      by_cases hpk : eventKey p = k
      · simp [findByKey, List.find?_cons, hpk]
      · simpa [findByKey, List.find?_cons, hpk] using ih

theorem findByKey_drain (stream : List Event) (k : String × Option String) :
    findByKey (instanceGetEventData stream) k = findByKey stream.reverse k := by
  induction stream using List.reverseRecOn with
  | nil => rfl
  | append_singleton s e ih =>
    have hdrain : instanceGetEventData (s ++ [e]) =
        squashInto (instanceGetEventData s) e := by
      simp [instanceGetEventData, List.foldl_append]
    rw [hdrain, List.reverse_append]
    by_cases hk : eventKey e = k
    · subst hk
      rw [findByKey_squash_same]
      simp [findByKey, List.find?_cons]
    · rw [findByKey_squash_other _ _ _ hk]
      rw [ih]
      simp [findByKey, List.find?_cons, hk]

/-- C2 (confirmed): the drained result has exactly one entry per
distinct `(class, dn)` pair, in order of first appearance (its key
list is the duplicate-free first-appearance key list of the stream),
and the entry surviving for a key is the last event of the stream
with that key — later attribute values win wholesale. -/
theorem instance_get_event_data_coalesces (stream : List Event) :
    (instanceGetEventData stream).map eventKey = firstAppearanceKeys stream
    ∧ ((instanceGetEventData stream).map eventKey).Nodup
    ∧ ∀ k, findByKey (instanceGetEventData stream) k =
        findByKey stream.reverse k := by
  have h1 : (instanceGetEventData stream).map eventKey =
      firstAppearanceKeys stream := by
    have := foldl_squash_map_eventKey stream []
    simpa [instanceGetEventData, firstAppearanceKeys] using this
  refine ⟨h1, ?_, fun k => findByKey_drain stream k⟩
  rw [h1]
  exact firstAppearanceKeys_nodup stream

/-! ## C3 -/

theorem flatStep_nil (table : String → Option String) (acc : List Event) :
    flatStep table acc [] = acc.reverse := by
  rw [flatStep]

theorem flatStep_cons (table : String → Option String) (acc : List Event)
    (e : Event) (rest : List Event) :
    flatStep table acc (e :: rest) =
      flatStep table (stripChildren e :: acc) (rest ++ validKids table e) := by
  rw [flatStep]

theorem nsizeL_nonempty_pos (e : Event) (rest : List Event) :
    0 < nsizeL (e :: rest) := by
  have := nsize_pos e
  simp only [nsizeL]
  omega

theorem flatStep_acc (table : String → Option String) :
    ∀ (n : ℕ) (q acc : List Event), nsizeL q ≤ n →
      flatStep table acc q = acc.reverse ++ flatStep table [] q := by
  intro n
  induction n with
  | zero =>
    intro q acc hq
    cases q with
    | nil => simp [flatStep_nil]
    | cons e rest =>
      exfalso
      have := nsizeL_nonempty_pos e rest
      omega
  | succ n ih =>
    intro q acc hq
    cases q with
    | nil => simp [flatStep_nil]
    | cons e rest =>
      have hlt : nsizeL (rest ++ validKids table e) ≤ n := by
        have := flatStep_dec table e rest
        omega
      rw [flatStep_cons, flatStep_cons,
        ih (rest ++ validKids table e) (stripChildren e :: acc) hlt,
        ih (rest ++ validKids table e) [stripChildren e] hlt]
      simp

theorem flatStep_split (table : String → Option String) :
    ∀ (q1 q2 : List Event),
      flatStep table [] (q1 ++ q2) =
        q1.map stripChildren ++
          flatStep table [] (q2 ++ q1.flatMap (validKids table)) := by
  intro q1
  induction q1 with
  | nil => intro q2; simp
  | cons e q1 ih =>
    intro q2
    rw [List.cons_append, flatStep_cons]
    rw [flatStep_acc table (nsizeL ((q1 ++ q2) ++ validKids table e)) _ _
      le_rfl]
    rw [show (q1 ++ q2) ++ validKids table e = q1 ++ (q2 ++ validKids table e)
      from by simp]
    rw [ih (q2 ++ validKids table e)]
    simp [List.flatMap_cons, List.append_assoc]

theorem flatEvents_unfold (table : String → Option String)
    (events : List Event) :
    flatEvents table events =
      events.map stripChildren ++
        flatEvents table (events.flatMap (validKids table)) := by
  have := flatStep_split table events []
  simpa [flatEvents] using this

theorem liftChild_eq_specLift (table : String → Option String) (d : String)
    (c : Event) : liftChild table d c = specLift table d c := by
  unfold liftChild specLift
  cases htc : table c.klass with
  | none => rfl
  | some pfx =>
    simp only [Option.some.injEq]
    refine congrArg (setAttr c "dn") (congrArg (fun s => d ++ "/" ++ s) ?_)
    unfold specChildSeg liftChild.pfxSeg
    cases hrn : getAttr c "rn" with
    | none =>
      cases hn : getAttr c "name" with
      | some v => rfl
      | none => cases hc : getAttr c "code" <;> rfl
    | some r =>
      by_cases hr : r = ""
      · simp only [hr, if_pos rfl]
      · simp [hr]

theorem validKids_eq_specKids (table : String → Option String) (x : Event) :
    validKids table x = x.children.filterMap (specLift table (dnOf x)) := by
  unfold validKids
  congr 1

theorem flatEvents_eq_spec_aux (table : String → Option String) :
    ∀ (n : ℕ) (events : List Event), nsizeL events ≤ n →
      flatEvents table events = flatEventsSpec table events ∧
        ∀ x ∈ flatEvents table events, x.children = [] := by
  intro n
  induction n with
  | zero =>
    intro events hn
    cases events with
    | nil =>
      constructor
      · rw [show flatEventsSpec table [] = [] from by rw [flatEventsSpec]]
        simp [flatEvents, flatStep_nil]
      · intro x hx
        simp [flatEvents, flatStep_nil] at hx
    | cons e rest =>
      exfalso
      have := nsizeL_nonempty_pos e rest
      omega
  | succ n ih =>
    intro events hn
    cases events with
    | nil =>
      constructor
      · rw [show flatEventsSpec table [] = [] from by rw [flatEventsSpec]]
        simp [flatEvents, flatStep_nil]
      · intro x hx
        simp [flatEvents, flatStep_nil] at hx
    | cons e rest =>
      have hkids : nsizeL ((e :: rest).flatMap (validKids table)) ≤ n := by
        have h1 := flatSpec_dec table e rest
        have h2 : (e :: rest).flatMap (validKids table) =
            (e :: rest).flatMap
              (fun x => x.children.filterMap (specLift table (dnOf x))) := by
          congr 1
        rw [h2]
        omega
      obtain ⟨ihEq, ihChildren⟩ := ih _ hkids
      constructor
      · rw [flatEvents_unfold, ihEq]
        rw [show flatEventsSpec table (e :: rest) =
            (e :: rest).map stripChildren ++
              flatEventsSpec table ((e :: rest).flatMap
                (fun x => x.children.filterMap (specLift table (dnOf x))))
          from by rw [flatEventsSpec]]
        congr 2
      · intro x hx
        rw [flatEvents_unfold] at hx
        rcases List.mem_append.mp hx with hx | hx
        · rcases List.mem_map.mp hx with ⟨y, _, rfl⟩
          rfl
        · exact ihChildren x hx

/-- C3 (confirmed): `flat_events` lifts, recursively and in visiting
order, every nested child whose class the prefix table knows to a
top-level event whose DN is the parent DN, a slash, and the child's
`rn` or its class prefix dash name-or-code; children of unknown class
are dropped with their subtrees; afterwards no event carries
children.  `flatEventsSpec` restates the rule from the claim's
words. -/
theorem flat_events_flattens (table : String → Option String)
    (events : List Event) :
    flatEvents table events = flatEventsSpec table events ∧
      ∀ x ∈ flatEvents table events, x.children = [] :=
  flatEvents_eq_spec_aux table (nsizeL events) events le_rfl

/-- Closed instantiation of C3 at a nested two-level input. -/
theorem flat_events_flattens_witness :
    flatEvents (fun k => if k = "faultInst" then some "fault" else none)
        [Event.mk "fvRsCtx" [("dn", "uni/a/rsctx")]
          [Event.mk "faultInst" [("code", "F1")]
            [Event.mk "faultInst" [("code", "F2")] []]]] =
      flatEventsSpec (fun k => if k = "faultInst" then some "fault" else none)
        [Event.mk "fvRsCtx" [("dn", "uni/a/rsctx")]
          [Event.mk "faultInst" [("code", "F1")]
            [Event.mk "faultInst" [("code", "F2")] []]]] :=
  (flat_events_flattens
    (fun k => if k = "faultInst" then some "fault" else none)
    [Event.mk "fvRsCtx" [("dn", "uni/a/rsctx")]
      [Event.mk "faultInst" [("code", "F1")]
        [Event.mk "faultInst" [("code", "F2")] []]]]).1

/-- The nested-fault scenario of the unit test `test_flat_events_nested`:
an `fvRsCtx` with a `faultInst` child that itself has a `faultInst`
child flattens to four flat events, the inner fault's DN stacking the
two `fault-<code>` segments; a `faultDelegate` child (not in the
prefix table) would be dropped. -/
theorem flat_events_nested_example :
    flatEvents
      (fun k => if k = "faultInst" then some "fault" else none)
      [Event.mk "fvRsCtx"
        [("dn", "uni/tn-ivar-wstest/BD-test-2/rsctx"),
         ("tnFvCtxName", "asasa")]
        [Event.mk "faultInst" [("ack", "no"), ("code", "F0952")]
          [Event.mk "faultInst" [("ack", "no"), ("code", "F0952")] []]],
       Event.mk "fvRsCtx"
        [("dn", "uni/tn-ivar-wstest/BD-test/rsctx"),
         ("tnFvCtxName", "test")] []] =
      [Event.mk "fvRsCtx"
        [("dn", "uni/tn-ivar-wstest/BD-test-2/rsctx"),
         ("tnFvCtxName", "asasa")] [],
       Event.mk "fvRsCtx"
        [("dn", "uni/tn-ivar-wstest/BD-test/rsctx"),
         ("tnFvCtxName", "test")] [],
       Event.mk "faultInst"
        [("ack", "no"), ("code", "F0952"),
         ("dn", "uni/tn-ivar-wstest/BD-test-2/rsctx/fault-F0952")] [],
       Event.mk "faultInst"
        [("ack", "no"), ("code", "F0952"),
         ("dn", "uni/tn-ivar-wstest/BD-test-2/rsctx/fault-F0952/fault-F0952")]
        []] := by
  simp [flatEvents, flatStep_cons, flatStep_nil, validKids, liftChild,
    liftChild.pfxSeg, stripChildren, dnOf, getAttr, setAttr, Event.klass,
    Event.attrs, Event.children]

/-- The squash scenario of the unit test `test_squash_events`: two
events with the same DN differing only in `tnFvCtxName` coalesce into
one event carrying the second value. -/
theorem squash_duplicate_dn_example :
    instanceGetEventData
      [Event.mk "fvRsCtx"
        [("dn", "uni/tn-test-tenant/BD-test/rsctx"), ("tnFvCtxName", "test")]
        [],
       Event.mk "fvRsCtx"
        [("dn", "uni/tn-test-tenant/BD-test/rsctx"),
         ("tnFvCtxName", "test-2")] []] =
      [Event.mk "fvRsCtx"
        [("dn", "uni/tn-test-tenant/BD-test/rsctx"),
         ("tnFvCtxName", "test-2")] []] := by
  rfl

/-! ## C4 and C10 -/

theorem filterTagStep_fst (sysId : String) (acc : List Event × List String)
    (e : Event) :
    (filterTagStep sysId acc e).1 =
      acc.1 ++ (if e.klass = TAG_KEY then [] else [e]) := by
  unfold filterTagStep
  by_cases hk : e.klass = TAG_KEY
  · by_cases hl : lastSegOf (dnOf e) = "tag-" ++ sysId
    · by_cases hd : isDeleting e <;> simp [hk, hl, hd]
    · simp [hk, hl]
  · simp [hk]

theorem filterTagStep_snd (sysId : String) (acc : List Event × List String)
    (e : Event) :
    (filterTagStep sysId acc e).2 = tagSetSpecStep sysId acc.2 e := by
  unfold filterTagStep tagSetSpecStep
  by_cases hk : e.klass = TAG_KEY
  · by_cases hl : lastSegOf (dnOf e) = "tag-" ++ sysId
    · by_cases hd : isDeleting e <;> simp [hk, hl, hd]
    · simp [hk, hl]
  · simp [hk]

theorem filterTag_fold_fst (sysId : String) (events : List Event) :
    ∀ acc : List Event × List String,
      (events.foldl (filterTagStep sysId) acc).1 =
        acc.1 ++ events.filter (fun e => !(e.klass = TAG_KEY)) := by
  induction events with
  | nil => intro acc; simp
  | cons e es ih =>
    intro acc
    rw [List.foldl_cons, ih (filterTagStep sysId acc e), filterTagStep_fst]
    by_cases hk : e.klass = TAG_KEY
    · simp [hk]
    · simp [hk]

theorem filterTag_fold_snd (sysId : String) (events : List Event) :
    ∀ acc : List Event × List String,
      (events.foldl (filterTagStep sysId) acc).2 =
        events.foldl (tagSetSpecStep sysId) acc.2 := by
  induction events with
  | nil => intro acc; rfl
  | cons e es ih =>
    intro acc
    rw [List.foldl_cons, ih (filterTagStep sysId acc e), filterTagStep_snd,
      List.foldl_cons]

theorem tagSetSpec_fold_no_tags (sysId : String) (events : List Event)
    (hnt : ∀ e ∈ events, ¬(e.klass = TAG_KEY)) :
    ∀ t : List String, events.foldl (tagSetSpecStep sysId) t = t := by
  induction events with
  | nil => intro t; rfl
  | cons e es ih =>
    intro t
    rw [List.foldl_cons]
    have h1 : tagSetSpecStep sysId t e = t := by
      unfold tagSetSpecStep
      rw [if_neg]
      intro hc
      exact hnt e (List.mem_cons_self e es) hc.1
    rw [h1]
    exact ih (fun x hx => hnt x (List.mem_cons_of_mem e hx)) t

theorem isOwned_empty (multiParent : List String) (e : Event) :
    isOwned multiParent [] e = false := by
  unfold isOwned
  split <;> rfl

/-- C4 counterexample: a single non-tag event marked `deleted`, with an
empty tag set, lands in the owned output — the claim's assertion that
with an empty tag_set the owned output is empty (and that a non-tag
event is owned exactly when its DN is in tag_set) is false for
deleting events. -/
theorem filter_ownership_deleting_counterexample :
    (filterOwnership [] "sys" []
        [Event.mk "fvBD" [("dn", "uni/tn-t/BD-b"), ("status", "deleted")] []]).1 =
      [Event.mk "fvBD" [("dn", "uni/tn-t/BD-b"), ("status", "deleted")] []]
    ∧ (filterOwnership [] "sys" []
        [Event.mk "fvBD" [("dn", "uni/tn-t/BD-b"), ("status", "deleted")] []]).2.2 = []
    ∧ ¬((Event.mk "fvBD" [("dn", "uni/tn-t/BD-b"), ("status", "deleted")]
        []).klass = TAG_KEY) := by
  refine ⟨rfl, rfl, by decide⟩

/-- C4 (corrected): in `_filter_ownership`, tag events at
`.../tag-<system_id>` appear in neither output and drive the tag set
exactly as the claim says; a non-tag event that is NOT deleting is
owned exactly when `_is_owned` holds against the final tag set and
monitored exactly otherwise; and with an empty initial tag set and no
tag events the owned output holds exactly the deleting events (the
claim said it would be empty: deleting events always reach the owned
output, see C10). -/
theorem filter_ownership_amended (multiParent : List String)
    (sysId : String) (ts : List String) (events : List Event) :
    (∀ e ∈ events, e.klass = TAG_KEY →
      e ∉ (filterOwnership multiParent sysId ts events).1 ∧
      e ∉ (filterOwnership multiParent sysId ts events).2.1)
    ∧ (filterOwnership multiParent sysId ts events).2.2 =
        events.foldl (tagSetSpecStep sysId) ts
    ∧ (∀ e ∈ events, ¬(e.klass = TAG_KEY) → isDeleting e = false →
      ((e ∈ (filterOwnership multiParent sysId ts events).1 ↔
        isOwned multiParent
          ((filterOwnership multiParent sysId ts events).2.2) e = true) ∧
       (e ∈ (filterOwnership multiParent sysId ts events).2.1 ↔
        isOwned multiParent
          ((filterOwnership multiParent sysId ts events).2.2) e = false)))
    ∧ (ts = [] → (∀ e ∈ events, ¬(e.klass = TAG_KEY)) →
      (filterOwnership multiParent sysId ts events).1 =
        events.filter (fun e => isDeleting e)) := by
  have hfst := filterTag_fold_fst sysId events ([], ts)
  have hsnd := filterTag_fold_snd sysId events ([], ts)
  simp only [List.nil_append] at hfst
  refine ⟨?_, ?_, ?_, ?_⟩
  · intro e _ hk
    constructor
    · intro hmem
      unfold filterOwnership at hmem
      simp only at hmem
      have := (List.mem_filter.mp hmem).1
      rw [hfst] at this
      have := (List.mem_filter.mp this).2
      simp [hk] at this
    · intro hmem
      unfold filterOwnership at hmem
      simp only at hmem
      have := (List.mem_filter.mp hmem).1
      rw [hfst] at this
      have := (List.mem_filter.mp this).2
      simp [hk] at this
  · unfold filterOwnership
    simp only
    exact hsnd
  · intro e he hk hd
    have hman : e ∈ (events.foldl (filterTagStep sysId) ([], ts)).1 := by
      rw [hfst]
      exact List.mem_filter.mpr ⟨he, by simp [hk]⟩
    constructor
    · unfold filterOwnership
      simp only
      rw [List.mem_filter]
      constructor
      · rintro ⟨-, hp⟩
        rw [hd, Bool.or_false] at hp
        exact hp
      · intro hp
        refine ⟨hman, ?_⟩
        rw [hd, Bool.or_false]
        exact hp
    · unfold filterOwnership
      simp only
      rw [List.mem_filter]
      constructor
      · rintro ⟨-, hp⟩
        rw [hd, Bool.or_false, Bool.not_eq_true'] at hp
        exact hp
      · intro hp
        refine ⟨hman, ?_⟩
        rw [hd, Bool.or_false, Bool.not_eq_true']
        exact hp
  · intro hts hnt
    unfold filterOwnership
    simp only
    have hts' : (events.foldl (filterTagStep sysId) ([], ts)).2 = [] := by
      rw [hsnd, hts]
      exact tagSetSpec_fold_no_tags sysId events hnt []
    have hmanaged : (events.foldl (filterTagStep sysId) ([], ts)).1 = events := by
      rw [hfst]
      exact List.filter_eq_self.mpr (fun e he => by simp [hnt e he])
    rw [hmanaged]
    apply List.filter_congr
    intro e _
    rw [hts', isOwned_empty, Bool.false_or]

/-- A closed instantiation of the amended C4 theorem on the scenario of
the unit test `test_filter_ownership`: one tag at
`uni/tn-x/BD-t/rsctx/tag-sys` plus one non-deleting `fvRsCtx` under it
and one outside it. -/
theorem filter_ownership_amended_witness :
    ((Event.mk "tagInst" [("dn", "uni/tn-x/BD-t/rsctx/tag-sys")] []) ∉
      (filterOwnership [] "sys" []
        [Event.mk "fvRsCtx" [("dn", "uni/tn-x/BD-t/rsctx")] [],
         Event.mk "fvRsCtx" [("dn", "uni/tn-x/BD-u/rsctx")] [],
         Event.mk "tagInst" [("dn", "uni/tn-x/BD-t/rsctx/tag-sys")] []]).1)
    ∧ (filterOwnership [] "sys" []
        [Event.mk "fvRsCtx" [("dn", "uni/tn-x/BD-t/rsctx")] [],
         Event.mk "fvRsCtx" [("dn", "uni/tn-x/BD-u/rsctx")] [],
         Event.mk "tagInst" [("dn", "uni/tn-x/BD-t/rsctx/tag-sys")] []]).2.2 =
        ["uni/tn-x/BD-t/rsctx"]
    ∧ ((Event.mk "fvRsCtx" [("dn", "uni/tn-x/BD-t/rsctx")] []) ∈
      (filterOwnership [] "sys" []
        [Event.mk "fvRsCtx" [("dn", "uni/tn-x/BD-t/rsctx")] [],
         Event.mk "fvRsCtx" [("dn", "uni/tn-x/BD-u/rsctx")] [],
         Event.mk "tagInst" [("dn", "uni/tn-x/BD-t/rsctx/tag-sys")] []]).1) := by
  refine ⟨?_, ?_, ?_⟩
  · exact ((filter_ownership_amended [] "sys" []
      [Event.mk "fvRsCtx" [("dn", "uni/tn-x/BD-t/rsctx")] [],
       Event.mk "fvRsCtx" [("dn", "uni/tn-x/BD-u/rsctx")] [],
       Event.mk "tagInst" [("dn", "uni/tn-x/BD-t/rsctx/tag-sys")] []]).1
      (Event.mk "tagInst" [("dn", "uni/tn-x/BD-t/rsctx/tag-sys")] [])
      (by decide) rfl).1
  · have := (filter_ownership_amended [] "sys" []
      [Event.mk "fvRsCtx" [("dn", "uni/tn-x/BD-t/rsctx")] [],
       Event.mk "fvRsCtx" [("dn", "uni/tn-x/BD-u/rsctx")] [],
       Event.mk "tagInst" [("dn", "uni/tn-x/BD-t/rsctx/tag-sys")] []]).2.1
    rw [this]
    rfl
  · exact ((((filter_ownership_amended [] "sys" []
      [Event.mk "fvRsCtx" [("dn", "uni/tn-x/BD-t/rsctx")] [],
       Event.mk "fvRsCtx" [("dn", "uni/tn-x/BD-u/rsctx")] [],
       Event.mk "tagInst" [("dn", "uni/tn-x/BD-t/rsctx/tag-sys")] []]).2.2.1
      (Event.mk "fvRsCtx" [("dn", "uni/tn-x/BD-t/rsctx")] [])
      (by decide) (by decide) rfl).1).mpr (by decide))

/-- C10 (confirmed): a non-tag event marked as deleting reaches both
the owned and the monitored output of `_filter_ownership`, whatever
the tag set holds — the two outputs are not disjoint for deletions,
so the deletion is folded on whichever side the object lived. -/
theorem filter_ownership_deleting_both_outputs (multiParent : List String)
    (sysId : String) (ts : List String) (events : List Event) (e : Event)
    (he : e ∈ events) (hk : ¬(e.klass = TAG_KEY))
    (hd : isDeleting e = true) :
    e ∈ (filterOwnership multiParent sysId ts events).1 ∧
      e ∈ (filterOwnership multiParent sysId ts events).2.1 := by
  have hman : e ∈ (events.foldl (filterTagStep sysId) ([], ts)).1 := by
    rw [filterTag_fold_fst sysId events ([], ts)]
    simp only [List.nil_append]
    exact List.mem_filter.mpr ⟨he, by simp [hk]⟩
  unfold filterOwnership
  simp only
  constructor
  · exact List.mem_filter.mpr ⟨hman, by rw [hd, Bool.or_true]⟩
  · exact List.mem_filter.mpr ⟨hman, by rw [hd, Bool.or_true]⟩

/-- Closed instantiation of C10: a deleted `fvBD` with a tag set owning
a different DN shows up in both outputs. -/
theorem filter_ownership_deleting_both_outputs_witness :
    (Event.mk "fvBD" [("dn", "uni/tn-z/BD-q"), ("status", "deleted")] []) ∈
      (filterOwnership [] "aid" ["uni/tn-z/BD-other"]
        [Event.mk "fvBD" [("dn", "uni/tn-z/BD-q"), ("status", "deleted")]
          []]).1 ∧
    (Event.mk "fvBD" [("dn", "uni/tn-z/BD-q"), ("status", "deleted")] []) ∈
      (filterOwnership [] "aid" ["uni/tn-z/BD-other"]
        [Event.mk "fvBD" [("dn", "uni/tn-z/BD-q"), ("status", "deleted")]
          []]).2.1 :=
  filter_ownership_deleting_both_outputs [] "aid" ["uni/tn-z/BD-other"]
    [Event.mk "fvBD" [("dn", "uni/tn-z/BD-q"), ("status", "deleted")] []]
    (Event.mk "fvBD" [("dn", "uni/tn-z/BD-q"), ("status", "deleted")] [])
    (by decide) (by decide) (by decide)

/-! ## C5 -/

/-- C5 (confirmed): if a drained batch holds an event of a root class
(`fvTenant` or `infraInfra`) without a `status` attribute, the
root-reset stage of `_event_loop` — which runs before `flat_events`,
`_fill_events`, `_filter_ownership` and `_event_to_tree` — replaces
the config and operational trees with fresh empty trees and leaves
the monitored tree untouched. -/
theorem event_loop_root_reset (ws : WorkerState) (events : List Event)
    (h : ∃ e ∈ events, e.klass ∈ ROOT_KEYS ∧ getAttr e "status" = none) :
    (eventLoopResetStep ws events).state = HashTree.empty ∧
      (eventLoopResetStep ws events).operationalState = HashTree.empty ∧
      (eventLoopResetStep ws events).monitoredState = ws.monitoredState := by
  obtain ⟨e, he, hk, hs⟩ := h
  unfold eventLoopResetStep
  rw [if_pos]
  · exact ⟨rfl, rfl, rfl⟩
  · refine List.any_eq_true.mpr ⟨e, he, ?_⟩
    rw [hs]
    simp [hk, truthyOpt]

/-- Closed instantiation of C5: a bare `fvTenant` event resets a
worker whose three trees are nonempty — config and operational come
back empty, the monitored tree survives. -/
theorem event_loop_root_reset_witness :
    (eventLoopResetStep
        ⟨⟨["uni/tn-a"]⟩, ⟨["uni/tn-a/fault-F1"]⟩, ⟨["uni/tn-a/BD-m"]⟩, []⟩
        [Event.mk "fvTenant" [("dn", "uni/tn-a")] []]).state =
      HashTree.empty ∧
    (eventLoopResetStep
        ⟨⟨["uni/tn-a"]⟩, ⟨["uni/tn-a/fault-F1"]⟩, ⟨["uni/tn-a/BD-m"]⟩, []⟩
        [Event.mk "fvTenant" [("dn", "uni/tn-a")] []]).operationalState =
      HashTree.empty ∧
    (eventLoopResetStep
        ⟨⟨["uni/tn-a"]⟩, ⟨["uni/tn-a/fault-F1"]⟩, ⟨["uni/tn-a/BD-m"]⟩, []⟩
        [Event.mk "fvTenant" [("dn", "uni/tn-a")] []]).monitoredState =
      (⟨⟨["uni/tn-a"]⟩, ⟨["uni/tn-a/fault-F1"]⟩, ⟨["uni/tn-a/BD-m"]⟩,
        ([] : List String)⟩ : WorkerState).monitoredState :=
  event_loop_root_reset
    ⟨⟨["uni/tn-a"]⟩, ⟨["uni/tn-a/fault-F1"]⟩, ⟨["uni/tn-a/BD-m"]⟩, []⟩
    [Event.mk "fvTenant" [("dn", "uni/tn-a")] []]
    ⟨Event.mk "fvTenant" [("dn", "uni/tn-a")] [], by decide⟩

/-! ## C9 -/

theorem mem_treeDelete {t : HashTree} {ks : List String} {k : String} :
    k ∈ (treeDelete t ks).keys ↔
      k ∈ t.keys ∧ ∀ d ∈ ks, ¬(isUnder d k = true) := by
  unfold treeDelete
  simp only [List.mem_filter, Bool.not_eq_true']
  constructor
  · rintro ⟨h1, h2⟩
    refine ⟨h1, fun d hd hc => ?_⟩
    rw [List.any_eq_false] at h2
    exact absurd hc (by simpa using h2 d hd)
  · rintro ⟨h1, h2⟩
    refine ⟨h1, ?_⟩
    rw [List.any_eq_false]
    intro d hd
    simpa using h2 d hd

theorem mem_treeUpdate {t : HashTree} {ks : List String} {k : String} :
    k ∈ (treeUpdate t ks).keys ↔ k ∈ t.keys ∨ k ∈ ks := by
  unfold treeUpdate
  simp only [List.mem_append, List.mem_filter, Bool.not_eq_true']
  constructor
  · rintro (h | ⟨h, -⟩)
    · exact Or.inl h
    · exact Or.inr h
  · intro h
    by_cases hm : k ∈ t.keys
    · exact Or.inl hm
    · rcases h with h | h
      · exact absurd h hm
      · refine Or.inr ⟨h, ?_⟩
        rw [← Bool.not_eq_true]
        intro hc
        exact hm (List.mem_of_elem_eq_true hc)

/-- C9 counterexample: one fold whose owned batch deletes a bridge
domain and, in the same batch, creates a fault under it.  The BD's key
is in the config delete set and leaves the config tree, yet right
after `_event_to_tree` the operational tree holds the fault key, which
lies inside the removed object's subtree — so the claim that the
operational tree contains no subtree of a just-removed config object
is false as stated. -/
theorem event_to_tree_fault_outlives_counterexample :
    "uni/tn-t/BD-b" ∈ cfgDeleteKeys []
        [Event.mk "fvBD" [("dn", "uni/tn-t/BD-b"), ("status", "deleted")] [],
         Event.mk "faultInst"
           [("dn", "uni/tn-t/BD-b/rsctx/fault-F0952")] []] []
    ∧ "uni/tn-t/BD-b" ∉ (eventToTree ⟨⟨["uni/tn-t/BD-b"]⟩, ⟨[]⟩, ⟨[]⟩, []⟩
        [Event.mk "fvBD" [("dn", "uni/tn-t/BD-b"), ("status", "deleted")] [],
         Event.mk "faultInst"
           [("dn", "uni/tn-t/BD-b/rsctx/fault-F0952")] []] []).state.keys
    ∧ "uni/tn-t/BD-b/rsctx/fault-F0952" ∈
        (eventToTree ⟨⟨["uni/tn-t/BD-b"]⟩, ⟨[]⟩, ⟨[]⟩, []⟩
        [Event.mk "fvBD" [("dn", "uni/tn-t/BD-b"), ("status", "deleted")] [],
         Event.mk "faultInst"
           [("dn", "uni/tn-t/BD-b/rsctx/fault-F0952")] []]
        []).operationalState.keys
    ∧ isUnder "uni/tn-t/BD-b" "uni/tn-t/BD-b/rsctx/fault-F0952" = true := by
  refine ⟨by decide, by decide, by decide, by decide⟩

/-- C9 (corrected): every key deleted from the config tree by a fold
is also deleted from the operational tree in the same fold, before
the fold's own operational creates are applied; hence after
`_event_to_tree` the operational tree holds no key inside the subtree
of a removed config object except keys the same fold's operational
(fault) create events re-insert. -/
theorem event_to_tree_config_delete_cleans_operational
    (ws : WorkerState) (owned monitored : List Event) (d k : String)
    (hd : d ∈ cfgDeleteKeys ws.tagSet owned monitored)
    (hu : isUnder d k = true)
    (hmem : k ∈ (eventToTree ws owned monitored).operationalState.keys) :
    k ∈ operCreateKeys ws.tagSet owned monitored := by
  have hne : cfgDelList ws.tagSet owned monitored ≠ [] := by
    intro hc
    rw [cfgDeleteKeys, hc] at hd
    exact absurd hd (by simp [keysOf])
  unfold eventToTree at hmem
  simp only [hne, if_true, ne_eq, not_false_iff] at hmem
  -- peel the operational-create stage
  by_cases hcre : operCreList ws.tagSet owned monitored ≠ []
  · rw [if_pos hcre] at hmem
    rcases mem_treeUpdate.mp hmem with hmem | hmem
    · exfalso
      -- peel the operational-delete stage
      have hmem1 : k ∈ (treeDelete ws.operationalState
          (cfgDeleteKeys ws.tagSet owned monitored)).keys := by
        by_cases hdel : operDelList ws.tagSet owned monitored ≠ []
        · rw [if_pos hdel] at hmem
          exact (mem_treeDelete.mp hmem).1
        · rwa [if_neg hdel] at hmem
      exact (mem_treeDelete.mp hmem1).2 d hd hu
    · exact hmem
  · rw [if_neg hcre] at hmem
    exfalso
    have hmem1 : k ∈ (treeDelete ws.operationalState
        (cfgDeleteKeys ws.tagSet owned monitored)).keys := by
      by_cases hdel : operDelList ws.tagSet owned monitored ≠ []
      · rw [if_pos hdel] at hmem
        exact (mem_treeDelete.mp hmem).1
      · rwa [if_neg hdel] at hmem
    exact (mem_treeDelete.mp hmem1).2 d hd hu

/-- Closed instantiation of the corrected C9 on the counterexample
batch: the surviving fault key is one of the fold's own operational
creates. -/
theorem event_to_tree_cleanup_witness :
    "uni/tn-t/BD-b/rsctx/fault-F0952" ∈ operCreateKeys []
      [Event.mk "fvBD" [("dn", "uni/tn-t/BD-b"), ("status", "deleted")] [],
       Event.mk "faultInst" [("dn", "uni/tn-t/BD-b/rsctx/fault-F0952")] []]
      [] :=
  event_to_tree_config_delete_cleans_operational
    ⟨⟨["uni/tn-t/BD-b"]⟩, ⟨[]⟩, ⟨[]⟩, []⟩
    [Event.mk "fvBD" [("dn", "uni/tn-t/BD-b"), ("status", "deleted")] [],
     Event.mk "faultInst" [("dn", "uni/tn-t/BD-b/rsctx/fault-F0952")] []]
    [] "uni/tn-t/BD-b" "uni/tn-t/BD-b/rsctx/fault-F0952"
    (by decide) (by decide) (by decide)

/-! ## C6 -/

theorem tags_foldl_eq_map (sysId : String) (l : List Event) :
    ∀ acc : List Event,
      l.foldl (fun acc mo => acc ++ [tagMoFor sysId mo]) acc =
        acc ++ l.map (tagMoFor sysId) := by
  induction l with
  | nil => intro acc; simp
  | cons mo rest ih =>
    intro acc
    rw [List.foldl_cons, ih (acc ++ [tagMoFor sysId mo])]
    simp

theorem pushCreateObject_eq (conv : AimRes → List Event) (sysId : String)
    (obj : AimRes) :
    pushCreateObject conv sysId obj =
      [ApicAction.transact (conv (takeOwnership obj) ++
        (conv (takeOwnership obj)).map (tagMoFor sysId))] := by
  show [ApicAction.transact (conv (takeOwnership obj) ++
    List.foldl (fun acc mo => acc ++ [tagMoFor sysId mo]) []
      (conv (takeOwnership obj)))] = _
  rw [tags_foldl_eq_map]
  simp

/-- C6 (confirmed): for every backlog request, each object pushed with
method create is converted after taking ownership — a monitored object
has `monitored` cleared and `pre_existing` set before conversion — and
the resulting MOs plus one tag per MO, at DN `<mo-dn>/tag-<system_id>`,
are sent in one transaction; each object pushed with method delete
yields a single direct DELETE on `/mo/<dn>.json` and no tag and no
transaction. -/
theorem push_aim_resources_create_delete (conv : AimRes → List Event)
    (sysId : String) (backlog : List Request) (req : Request)
    (hreq : req ∈ backlog) :
    (∀ obj ∈ req.create,
      ApicAction.transact (conv (takeOwnership obj) ++
          (conv (takeOwnership obj)).map (tagMoFor sysId)) ∈
        pushAimResources conv sysId backlog
      ∧ (takeOwnership obj).monitored = false
      ∧ (obj.monitored = true → (takeOwnership obj).preExisting = true)
      ∧ (obj.monitored = false → takeOwnership obj = obj))
    ∧ (∀ mo ∈ req.delete,
      ApicAction.httpDelete ("/mo/" ++ dnOf mo ++ ".json") ∈
        pushAimResources conv sysId backlog)
    ∧ (∀ mo : Event, dnOf (tagMoFor sysId mo) = dnOf mo ++ "/tag-" ++ sysId)
    ∧ (∀ mo ∈ req.delete, ∀ mos : List Event,
      ApicAction.transact mos ∉ pushDeleteObject mo) := by
  refine ⟨?_, ?_, ?_, ?_⟩
  · intro obj hobj
    refine ⟨?_, ?_, ?_, ?_⟩
    · unfold pushAimResources
      refine List.mem_flatMap.mpr ⟨req, hreq, List.mem_append_left _ ?_⟩
      refine List.mem_flatMap.mpr ⟨obj, hobj, ?_⟩
      rw [pushCreateObject_eq]
      exact List.mem_singleton.mpr rfl
    · unfold takeOwnership
      by_cases hm : obj.monitored <;> simp [hm]
    · intro hm
      unfold takeOwnership
      simp [hm]
    · intro hm
      unfold takeOwnership
      simp [hm]
  · intro mo hmo
    unfold pushAimResources
    refine List.mem_flatMap.mpr ⟨req, hreq, List.mem_append_right _ ?_⟩
    refine List.mem_flatMap.mpr ⟨mo, hmo, ?_⟩
    unfold pushDeleteObject
    exact List.mem_singleton.mpr rfl
  · intro mo
    unfold tagMoFor dnOf getAttr
    simp [Event.attrs]
  · intro mo _ mos hc
    unfold pushDeleteObject at hc
    rcases List.mem_singleton.mp hc with h
    cases h

/-- Closed instantiation of C6: one request creating a monitored BD
and deleting an MO, through an identity-like converter. -/
theorem push_aim_resources_create_delete_witness :
    (ApicAction.transact
        [Event.mk "fvBD" [("dn", "uni/tn-t/BD-c")] [],
         Event.mk "tagInst__fvBD" [("dn", "uni/tn-t/BD-c/tag-aid")] []] ∈
      pushAimResources
        (fun o => [Event.mk o.klass [("dn", o.dn)] []]) "aid"
        [⟨[⟨"fvBD", "uni/tn-t/BD-c", true, false⟩],
          [Event.mk "fvBD" [("dn", "uni/tn-t/BD-d")] []]⟩])
    ∧ (ApicAction.httpDelete "/mo/uni/tn-t/BD-d.json" ∈
      pushAimResources
        (fun o => [Event.mk o.klass [("dn", o.dn)] []]) "aid"
        [⟨[⟨"fvBD", "uni/tn-t/BD-c", true, false⟩],
          [Event.mk "fvBD" [("dn", "uni/tn-t/BD-d")] []]⟩])
    ∧ (takeOwnership ⟨"fvBD", "uni/tn-t/BD-c", true, false⟩).monitored =
        false
    ∧ (takeOwnership ⟨"fvBD", "uni/tn-t/BD-c", true, false⟩).preExisting =
        true := by
  have h := push_aim_resources_create_delete
    (fun o => [Event.mk o.klass [("dn", o.dn)] []]) "aid"
    [⟨[⟨"fvBD", "uni/tn-t/BD-c", true, false⟩],
      [Event.mk "fvBD" [("dn", "uni/tn-t/BD-d")] []]⟩]
    ⟨[⟨"fvBD", "uni/tn-t/BD-c", true, false⟩],
      [Event.mk "fvBD" [("dn", "uni/tn-t/BD-d")] []]⟩
    (List.mem_singleton.mpr rfl)
  obtain ⟨hc, hd, -, -⟩ := h
  have h1 := hc ⟨"fvBD", "uni/tn-t/BD-c", true, false⟩ (by decide)
  refine ⟨?_, hd (Event.mk "fvBD" [("dn", "uni/tn-t/BD-d")] []) (by decide),
    h1.2.1, h1.2.2.1 rfl⟩
  have := h1.1
  simpa using this

/-! ## C7 -/

theorem fetchStage_no_404 (conv : Event → List AimRes)
    (session : String → List String → Bool → Except String (List Event))
    (getAll includeTags : Bool) (fillers : AimRes → List String)
    (st : RetrSt) (event : Event) (c : String)
    (h : (fetchStage conv session getAll includeTags fillers st event).2 =
      some c) : ¬(c = "404") := by
  unfold fetchStage at h
  by_cases h1 : getAttr event "status" = some DELETED_STATUS
  · rw [if_pos h1] at h
    simp at h
  · rw [if_neg h1] at h
    by_cases h2 : (getAll || truthyOpt (getAttr event "status") ||
        decide (event.klass ∈ OPERATIONAL_LIST)) = true
    · rw [if_pos h2] at h
      rcases hpr : processAimRes session includeTags fillers
          (decide (event.klass ∈ OPERATIONAL_LIST)) (conv event) st
        with ⟨st', oerr⟩
      rw [hpr] at h
      cases oerr with
      | none => simp at h
      | some c' =>
        dsimp only at h
        by_cases h3 : c' = "404"
        · rw [if_pos h3] at h
          simp at h
        · rw [if_neg h3] at h
          dsimp only at h
          injection h with h4
          rw [← h4]
          exact h3
    · rw [if_neg h2] at h
      simp at h

theorem processEvent_error_iff (conv : Event → List AimRes)
    (session : String → List String → Bool → Except String (List Event))
    (getAll includeTags : Bool) (fillers : AimRes → List String)
    (st : RetrSt) (event : Event) (c : String) :
    processEvent conv session getAll includeTags fillers st event =
        .error c ↔
      (fetchStage conv session getAll includeTags fillers st event).2 =
        some c := by
  unfold processEvent
  rcases hf : fetchStage conv session getAll includeTags fillers st event
    with ⟨st1, oerr⟩
  cases oerr <;> simp

theorem foldlM_processEvent_no_404 (conv : Event → List AimRes)
    (session : String → List String → Bool → Except String (List Event))
    (getAll includeTags : Bool) (fillers : AimRes → List String)
    (events : List Event) :
    ∀ (st : RetrSt) (c : String),
      List.foldlM (processEvent conv session getAll includeTags fillers)
        st events = .error c → ¬(c = "404") := by
  induction events with
  | nil =>
    intro st c h
    simp [List.foldlM, pure, Except.pure] at h
  | cons e es ih =>
    intro st c h
    rw [List.foldlM_cons] at h
    cases hf : processEvent conv session getAll includeTags fillers st e with
    | error c' =>
      rw [hf] at h
      have h' : (Except.error c' : Except String RetrSt) = .error c := h
      injection h' with h2
      rw [← h2]
      exact fetchStage_no_404 conv session getAll includeTags fillers st e c'
        ((processEvent_error_iff ..).mp hf)
    | ok st' =>
      rw [hf] at h
      exact ih st' c h

theorem retrieve_single (conv : Event → List AimRes)
    (session : String → List String → Bool → Except String (List Event))
    (getAll includeTags : Bool) (fillers : AimRes → List String)
    (e : Event) :
    retrieveAciObjects conv session getAll includeTags fillers [e] =
      (processEvent conv session getAll includeTags fillers ⟨[], []⟩ e).map
        (fun st => st.result) := by
  unfold retrieveAciObjects
  cases h : processEvent conv session getAll includeTags fillers ⟨[], []⟩ e
    with
  | error c => simp [List.foldlM_cons, h, List.foldlM]
  | ok st' => simp [List.foldlM_cons, h, List.foldlM]

theorem processAimRes_single_error
    (session : String → List String → Bool → Except String (List Event))
    (includeTags : Bool) (fillers : AimRes → List String) (opClass : Bool)
    (ar : AimRes) (c : String)
    (hsess : ∀ ts co, session ar.dn ts co = .error c) :
    processAimRes session includeTags fillers opClass [ar] ⟨[], []⟩ =
      (⟨[], []⟩, some c) := by
  unfold processAimRes
  rw [hsess]
  rfl

/-- The accumulation over one `get_data` response (tenant.py lines
554-559) keeps, of events sharing a DN, the first, and skips DNs
already visited. -/
theorem foldl_dedup (data : List Event) :
    ∀ st : RetrSt,
      data.foldl (fun s item =>
        if s.visited.contains (dnOf item) then s
        else ⟨s.visited ++ [dnOf item], s.result ++ [item]⟩) st =
      ⟨st.visited ++ (dedupByDnFirst data st.visited).map dnOf,
       st.result ++ dedupByDnFirst data st.visited⟩ := by
  induction data with
  | nil =>
    intro st
    cases st
    simp [dedupByDnFirst]
  | cons i is ih =>
    intro st
    rw [List.foldl_cons]
    unfold dedupByDnFirst
    by_cases hc : st.visited.contains (dnOf i) = true
    · rw [if_pos hc, if_pos hc]
      exact ih st
    · rw [if_neg hc, if_neg hc]
      rw [ih ⟨st.visited ++ [dnOf i], st.result ++ [i]⟩]
      simp

theorem dedupByDnFirst_nodup (data : List Event) :
    ∀ seen : List String,
      (((dedupByDnFirst data seen).map dnOf).Nodup ∧
        ∀ x ∈ dedupByDnFirst data seen,
          ¬(seen.contains (dnOf x) = true)) := by
  induction data with
  | nil => intro seen; simp [dedupByDnFirst]
  | cons i is ih =>
    intro seen
    unfold dedupByDnFirst
    by_cases hc : seen.contains (dnOf i) = true
    · rw [if_pos hc]
      exact ih seen
    · rw [if_neg hc]
      obtain ⟨hnd, hni⟩ := ih (seen ++ [dnOf i])
      constructor
      · rw [List.map_cons, List.nodup_cons]
        refine ⟨?_, hnd⟩
        intro hmem
        rcases List.mem_map.mp hmem with ⟨x, hx, hdx⟩
        apply hni x hx
        rw [hdx]
        exact List.elem_eq_true_of_mem (by simp)
      · intro x hx
        rcases List.mem_cons.mp hx with rfl | hx
        · exact hc
        · intro hcx
          apply hni x hx
          exact List.elem_eq_true_of_mem
            (List.mem_append_left _ (List.mem_of_elem_eq_true hcx))

theorem processAimRes_single_ok
    (session : String → List String → Bool → Except String (List Event))
    (includeTags : Bool) (fillers : AimRes → List String) (opClass : Bool)
    (ar : AimRes) (data : List Event)
    (hsess : ∀ ts co, session ar.dn ts co = .ok data) :
    processAimRes session includeTags fillers opClass [ar] ⟨[], []⟩ =
      (addVisited
        ⟨(dedupByDnFirst data []).map dnOf, dedupByDnFirst data []⟩ ar.dn,
       none) := by
  unfold processAimRes
  rw [hsess]
  dsimp only
  rw [foldl_dedup data ⟨[], []⟩]
  simp only [List.nil_append]
  unfold processAimRes
  rfl

theorem truthy_modified : truthyOpt (some "modified") = true := by decide

/-- C7 (confirmed): the error handling of `retrieve_aci_objects`.
First, a 404 never escapes — any error code the function raises is not
`"404"`.  Second, a non-404 Fabric error on a retrieval propagates to
the caller.  Third, when the GET of a modified object fails with 404,
the call returns normally and emits no completed event for that DN
(the object counts as deleted).  Fourth, events with status `deleted`
are emitted as-is.  Fifth, retrieved items are deduplicated by DN: an
already visited DN is never emitted twice from retrieval. -/
theorem retrieve_aci_objects_error_handling :
    (∀ (conv : Event → List AimRes)
      (session : String → List String → Bool → Except String (List Event))
      (getAll includeTags : Bool) (fillers : AimRes → List String)
      (events : List Event) (c : String),
      retrieveAciObjects conv session getAll includeTags fillers events =
        .error c → ¬(c = "404"))
    ∧ (∀ (conv : Event → List AimRes)
      (session : String → List String → Bool → Except String (List Event))
      (fillers : AimRes → List String) (e : Event) (ar : AimRes)
      (c : String),
      conv e = [ar] → getAttr e "status" = some "modified" →
      (∀ ts co, session ar.dn ts co = .error c) → ¬(c = "404") →
      retrieveAciObjects conv session false true fillers [e] = .error c)
    ∧ (∀ (conv : Event → List AimRes)
      (session : String → List String → Bool → Except String (List Event))
      (fillers : AimRes → List String) (e : Event) (ar : AimRes),
      conv e = [ar] → getAttr e "status" = some "modified" →
      (∀ ts co, session ar.dn ts co = .error "404") →
      retrieveAciObjects conv session false true fillers [e] = .ok [])
    ∧ (∀ (conv : Event → List AimRes)
      (session : String → List String → Bool → Except String (List Event))
      (getAll includeTags : Bool) (fillers : AimRes → List String)
      (events : List Event),
      (∀ e ∈ events, getAttr e "status" = some DELETED_STATUS) →
      retrieveAciObjects conv session getAll includeTags fillers events =
        .ok events)
    ∧ (∀ (conv : Event → List AimRes)
      (session : String → List String → Bool → Except String (List Event))
      (fillers : AimRes → List String) (e : Event) (ar : AimRes)
      (data : List Event),
      conv e = [ar] → getAttr e "status" = some "modified" →
      (∀ ts co, session ar.dn ts co = .ok data) →
      retrieveAciObjects conv session false true fillers [e] =
          .ok (dedupByDnFirst data []) ∧
        ((dedupByDnFirst data []).map dnOf).Nodup) := by
  have hmodified : ∀ e : Event, getAttr e "status" = some "modified" →
      (getAttr e "status" = some DELETED_STATUS) = False := by
    intro e he
    rw [he]
    simp [DELETED_STATUS]
  have htruthy : ∀ e : Event, getAttr e "status" = some "modified" →
      truthyOpt (getAttr e "status") = true := by
    intro e he
    rw [he]
    decide
  refine ⟨?_, ?_, ?_, ?_, ?_⟩
  · -- 404 never escapes
    intro conv session getAll includeTags fillers events c h
    unfold retrieveAciObjects at h
    cases hfold : List.foldlM
        (processEvent conv session getAll includeTags fillers) ⟨[], []⟩
        events with
    | error c' =>
      rw [hfold] at h
      have h' : (Except.error c' : Except String (List Event)) = .error c := h
      injection h' with h2
      rw [← h2]
      exact foldlM_processEvent_no_404 conv session getAll includeTags
        fillers events ⟨[], []⟩ c' hfold
    | ok st =>
      rw [hfold] at h
      have h' : (Except.ok st.result : Except String (List Event)) =
        .error c := h
      exact Except.noConfusion h'
  · -- non-404 errors propagate
    intro conv session fillers e ar c hconv hst hsess hc
    rw [retrieve_single]
    have hfetch : fetchStage conv session false true fillers ⟨[], []⟩ e =
        (⟨[], []⟩, some c) := by
      unfold fetchStage
      rw [if_neg (show ¬(getAttr e "status" = some DELETED_STATUS) by
        rw [hst]; simp [DELETED_STATUS])]
      rw [if_pos (by rw [htruthy e hst]; simp)]
      rw [hconv, processAimRes_single_error session true fillers _ ar c hsess]
      dsimp only
      rw [if_neg hc]
    unfold processEvent
    rw [hfetch]
    rfl
  · -- a 404 counts as deleted: nothing is emitted for the DN
    intro conv session fillers e ar hconv hst hsess
    rw [retrieve_single]
    have hfetch : fetchStage conv session false true fillers ⟨[], []⟩ e =
        (⟨[], []⟩, none) := by
      unfold fetchStage
      rw [if_neg (by rw [hst]; simp [DELETED_STATUS])]
      rw [if_pos (by rw [htruthy e hst]; simp)]
      rw [hconv,
        processAimRes_single_error session true fillers _ ar "404" hsess]
      dsimp only
      rw [if_pos rfl]
    unfold processEvent
    rw [hfetch]
    dsimp only
    unfold completeStage
    rw [if_pos (htruthy e hst)]
    rfl
  · -- deleted events are emitted as-is
    intro conv session getAll includeTags fillers events hdel
    have key : ∀ (evs : List Event), (∀ e ∈ evs,
        getAttr e "status" = some DELETED_STATUS) →
        ∀ res : List Event,
        List.foldlM (processEvent conv session getAll includeTags fillers)
          ⟨[], res⟩ evs = .ok ⟨[], res ++ evs⟩ := by
      intro evs
      induction evs with
      | nil => intro _ res; simp [List.foldlM, pure, Except.pure]
      | cons e es ih =>
        intro h res
        rw [List.foldlM_cons]
        have hstep : processEvent conv session getAll includeTags fillers
            ⟨[], res⟩ e = .ok ⟨[], res ++ [e]⟩ := by
          unfold processEvent fetchStage
          rw [if_pos (h e (List.mem_cons_self e es))]
          have hraw : rawDnNotVisited ⟨[], res⟩ (getAttr e "dn") = true := by
            cases getAttr e "dn" <;> rfl
          rw [hraw]
          simp only [if_true]
          unfold completeStage
          rw [if_pos (by rw [h e (List.mem_cons_self e es)]; decide)]
        rw [hstep]
        show List.foldlM
            (processEvent conv session getAll includeTags fillers)
            ⟨[], res ++ [e]⟩ es = Except.ok ⟨[], res ++ (e :: es)⟩
        rw [ih (fun x hx => h x (List.mem_cons_of_mem e hx)) (res ++ [e])]
        simp
    unfold retrieveAciObjects
    rw [key events hdel []]
    rfl
  · -- retrieved data is deduplicated by DN
    intro conv session fillers e ar data hconv hst hsess
    have hnodup := (dedupByDnFirst_nodup data []).1
    refine ⟨?_, hnodup⟩
    rw [retrieve_single]
    have hfetch : fetchStage conv session false true fillers ⟨[], []⟩ e =
        (addVisited
          ⟨(dedupByDnFirst data []).map dnOf, dedupByDnFirst data []⟩ ar.dn,
         none) := by
      unfold fetchStage
      rw [if_neg (by rw [hst]; simp [DELETED_STATUS])]
      rw [if_pos (by rw [htruthy e hst]; simp)]
      rw [hconv,
        processAimRes_single_ok session true fillers _ ar data hsess]
    unfold processEvent
    rw [hfetch]
    dsimp only
    unfold completeStage
    rw [if_pos (htruthy e hst)]
    unfold addVisited
    by_cases hv : ((dedupByDnFirst data []).map dnOf).contains ar.dn = true
    · rw [if_pos hv]
      rfl
    · rw [if_neg hv]
      rfl

/-- Closed instantiation of C7 on a modified `fvRsCtx` whose parent the
Fabric answers with two copies of the same object: a non-404 error
propagates, a 404 yields an empty result, a deleted event passes
through, and duplicate DNs in the response collapse to one event. -/
theorem retrieve_aci_objects_error_handling_witness :
    retrieveAciObjects
        (fun _ => [⟨"fvRsCtx", "uni/tn-t/BD-b/rsctx", false, false⟩])
        (fun _ _ _ => .error "400") false true (fun _ => [])
        [Event.mk "fvRsCtx"
          [("dn", "uni/tn-t/BD-b/rsctx"), ("status", "modified")] []] =
      .error "400"
    ∧ retrieveAciObjects
        (fun _ => [⟨"fvRsCtx", "uni/tn-t/BD-b/rsctx", false, false⟩])
        (fun _ _ _ => .error "404") false true (fun _ => [])
        [Event.mk "fvRsCtx"
          [("dn", "uni/tn-t/BD-b/rsctx"), ("status", "modified")] []] =
      .ok []
    ∧ retrieveAciObjects
        (fun _ => [⟨"fvRsCtx", "uni/tn-t/BD-b/rsctx", false, false⟩])
        (fun _ _ _ => .error "400") false true (fun _ => [])
        [Event.mk "fvRsCtx"
          [("dn", "uni/tn-t/BD-b/rsctx"), ("status", "deleted")] []] =
      .ok [Event.mk "fvRsCtx"
        [("dn", "uni/tn-t/BD-b/rsctx"), ("status", "deleted")] []]
    ∧ retrieveAciObjects
        (fun _ => [⟨"fvRsCtx", "uni/tn-t/BD-b/rsctx", false, false⟩])
        (fun _ _ _ => .ok
          [Event.mk "fvRsCtx" [("dn", "uni/tn-t/BD-b/rsctx")] [],
           Event.mk "fvRsCtx" [("dn", "uni/tn-t/BD-b/rsctx")] []])
        false true (fun _ => [])
        [Event.mk "fvRsCtx"
          [("dn", "uni/tn-t/BD-b/rsctx"), ("status", "modified")] []] =
      .ok [Event.mk "fvRsCtx" [("dn", "uni/tn-t/BD-b/rsctx")] []] := by
  refine ⟨?_, ?_, ?_, ?_⟩
  · exact retrieve_aci_objects_error_handling.2.1
      (fun _ => [⟨"fvRsCtx", "uni/tn-t/BD-b/rsctx", false, false⟩])
      (fun _ _ _ => .error "400") (fun _ => [])
      (Event.mk "fvRsCtx"
        [("dn", "uni/tn-t/BD-b/rsctx"), ("status", "modified")] [])
      ⟨"fvRsCtx", "uni/tn-t/BD-b/rsctx", false, false⟩ "400"
      rfl (by decide) (fun _ _ => rfl) (by decide)
  · exact retrieve_aci_objects_error_handling.2.2.1
      (fun _ => [⟨"fvRsCtx", "uni/tn-t/BD-b/rsctx", false, false⟩])
      (fun _ _ _ => .error "404") (fun _ => [])
      (Event.mk "fvRsCtx"
        [("dn", "uni/tn-t/BD-b/rsctx"), ("status", "modified")] [])
      ⟨"fvRsCtx", "uni/tn-t/BD-b/rsctx", false, false⟩
      rfl (by decide) (fun _ _ => rfl)
  · exact retrieve_aci_objects_error_handling.2.2.2.1
      (fun _ => [⟨"fvRsCtx", "uni/tn-t/BD-b/rsctx", false, false⟩])
      (fun _ _ _ => .error "400") false true (fun _ => [])
      [Event.mk "fvRsCtx"
        [("dn", "uni/tn-t/BD-b/rsctx"), ("status", "deleted")] []]
      (by decide)
  · have h := retrieve_aci_objects_error_handling.2.2.2.2
      (fun _ => [⟨"fvRsCtx", "uni/tn-t/BD-b/rsctx", false, false⟩])
      (fun _ _ _ => .ok
        [Event.mk "fvRsCtx" [("dn", "uni/tn-t/BD-b/rsctx")] [],
         Event.mk "fvRsCtx" [("dn", "uni/tn-t/BD-b/rsctx")] []])
      (fun _ => [])
      (Event.mk "fvRsCtx"
        [("dn", "uni/tn-t/BD-b/rsctx"), ("status", "modified")] [])
      ⟨"fvRsCtx", "uni/tn-t/BD-b/rsctx", false, false⟩
      [Event.mk "fvRsCtx" [("dn", "uni/tn-t/BD-b/rsctx")] [],
       Event.mk "fvRsCtx" [("dn", "uni/tn-t/BD-b/rsctx")] []]
      rfl (by decide) (fun _ _ => rfl)
    rw [h.1]
    rfl

/-! ## C8 -/

/-- C8 (confirmed): an exception in the worker's loop body other than
`GreenletExit` is caught by `_main_loop`, which unsubscribes and
returns normally (when the unsubscribe itself does not raise), so it
never escapes `_run`; `GreenletExit` alone is re-raised by
`_main_loop`; and `_run` returns normally on `GreenletExit` whatever
the outcome of the unsubscribe attempted in its handler — even when
that unsubscribe raises. -/
theorem main_loop_error_containment :
    (∀ m : String, mainLoop (.exc m) .ok = .ok)
    ∧ (∀ u : Outcome, mainLoop .greenletExit u = .raised .greenletExit)
    ∧ (∀ (iters : List (PyExc × Outcome)) (exitUnsub : Outcome),
        (∀ p ∈ iters, p.2 = Outcome.ok) →
        runWorker iters exitUnsub = .ok) := by
  refine ⟨fun m => rfl, fun u => rfl, ?_⟩
  intro iters
  induction iters with
  | nil => intro exitUnsub _; rfl
  | cons p rest ih =>
    intro exitUnsub h
    obtain ⟨b, u⟩ := p
    have hu : u = Outcome.ok := h (b, u) (List.mem_cons_self _ _)
    subst hu
    cases b with
    | greenletExit => rfl
    | exc m =>
      show runWorker rest exitUnsub = .ok
      exact ih exitUnsub (fun q hq => h q (List.mem_cons_of_mem _ hq))

/-- Closed instantiation of C8: a run whose first loop raises a
`KeyError`-like exception and whose second raises `GreenletExit`, with
the exit unsubscribe itself raising, still returns normally. -/
theorem main_loop_error_containment_witness :
    runWorker [(.exc "KeyError", .ok), (.greenletExit, .ok)]
      (.raised (.exc "unsubscribe failed")) = .ok :=
  main_loop_error_containment.2.2
    [(.exc "KeyError", .ok), (.greenletExit, .ok)]
    (.raised (.exc "unsubscribe failed")) (by decide)

end AciTenant
